import Mathlib

set_option maxRecDepth 8000

/-!
Verification of the cursor-history core: path reconstruction (lib/paths.py),
the single-pass transcript scanners (lib/transcript.py and lib/indexer.py)
and the preview renderer (lib/transcript.py).

Python string primitives (strip, split, join, slicing, the two regular
expressions of the scanners) are embedded as executable functions over lists
of characters.  The standard-library call json.loads is not code of this
repository; it is passed to the scanners as an oracle
String -> Option JValue (none models json.JSONDecodeError), and JValue models
the values json.loads can produce.  File reading is modelled by an
Option String argument (none models an OSError from open/read); Python
exceptions inside the scanners are modelled explicitly, since the source
catches them at the outer parse/preview level.
-/

namespace Py

/-- The ASCII whitespace set of Python str.strip / str.split / regex \s. -/
def isWs (c : Char) : Bool :=
  c == ' ' || c == '\t' || c == '\n' || c == '\r' || c == '\x0b' || c == '\x0c'

/-- Python str.strip() on a character list. -/
def stripList (cs : List Char) : List Char :=
  ((cs.dropWhile isWs).reverse.dropWhile isWs).reverse

/-- Python str.strip(). -/
def strip (s : String) : String := ⟨stripList s.data⟩

/-- Python slicing s[:n]. -/
def takeStr (n : Nat) (s : String) : String := ⟨s.data.take n⟩

/-- Python str.startswith(pat). -/
def startsWith (pat s : String) : Bool := pat.data.isPrefixOf s.data

/-- Python str.split(sep) for a one-character separator. -/
def splitChar (sep : Char) : List Char → List (List Char)
  | [] => [[]]
  | c :: cs =>
    match splitChar sep cs with
    | r :: rs => if c == sep then [] :: r :: rs else (c :: r) :: rs
    | [] => [[]]

/-- Python str.split(sep) on strings (one-character separator). -/
def splitOnChar (sep : Char) (s : String) : List String :=
  (splitChar sep s.data).map String.mk

/-- Python text.split("\n"), the line iteration of the parsers. -/
def lines (s : String) : List String := splitOnChar '\n' s

/-- Python str.rstrip(":"). -/
def rstripColon (s : String) : String :=
  ⟨(s.data.reverse.dropWhile (fun c => c == ':')).reverse⟩

/-- Python "c".upper() (used on the single-letter drive candidate). -/
def upper (s : String) : String := ⟨s.data.map Char.toUpper⟩

/-- Python folder_name.replace("-", "/"): both are single characters, so the
    replacement is a character map. -/
def replaceDashSlash (s : String) : String :=
  ⟨s.data.map (fun c => if c == '-' then '/' else c)⟩

/-- One step of re.sub(r"<[^>]+>", "", text): a buffered scan.  buf is empty,
    or holds a pending lt plus the non-gt run after it; a gt closes a pending
    run of length at least one (the tag is dropped), a pending lone lt
    followed directly by gt is no match and both characters are kept. -/
def stripTagsAux : List Char → List Char → List Char
  | buf, [] => buf
  | buf, c :: cs =>
    if buf.isEmpty then
      if c == '<' then stripTagsAux [c] cs else c :: stripTagsAux [] cs
    else
      if c == '>' then
        if 2 ≤ buf.length then stripTagsAux [] cs
        else buf ++ '>' :: stripTagsAux [] cs
      else stripTagsAux (buf ++ [c]) cs

/-- re.sub(r"<[^>]+>", "", text) on a character list (leftmost, greedy run up
    to the first gt, exactly as the regex engine matches). -/
def stripTagsList (cs : List Char) : List Char := stripTagsAux [] cs

/-- One pass implementing " ".join(s.split()): runs of whitespace between
    words become one space, leading/trailing whitespace disappears.
    started = a word character was emitted; pend = whitespace seen since. -/
def collapseAux (started pend : Bool) : List Char → List Char
  | [] => []
  | c :: cs =>
    if isWs c then collapseAux started true cs
    else if started && pend then ' ' :: c :: collapseAux true false cs
    else c :: collapseAux true false cs

/-- Python " ".join(s.split()) on a character list. -/
def collapseWs (cs : List Char) : List Char := collapseAux false false cs

/-- transcript.py _clean_text: strip tags, then collapse whitespace.
    indexer.py builds the same value as
    " ".join(re.sub(r"<[^>]+>", "", text).strip().split()) — the inner strip
    is absorbed by the split. -/
def cleanText (s : String) : String := ⟨collapseWs (stripTagsList s.data)⟩

/-- Split a character list at the first occurrence of pat, returning the part
    before and the part after the occurrence. -/
def splitFirst (pat : List Char) : List Char → Option (List Char × List Char)
  | [] => if pat.isEmpty then some ([], []) else none
  | c :: cs =>
    if pat.isPrefixOf (c :: cs) then some ([], (c :: cs).drop pat.length)
    else
      match splitFirst pat cs with
      | some (pre, post) => some (c :: pre, post)
      | none => none

/-- re.search(r"<user_query>\s*(.*?)\s*</user_query>", text, re.DOTALL) and
    its group(1): the match opens at the first open tag (a close tag after a
    later open tag would also follow the first one), the lazy group ends at
    the first close tag after it, and the two \s* trim the group's border
    whitespace. -/
def userQuerySummaryRaw (text : String) : Option String :=
  match splitFirst "<user_query>".data text.data with
  | none => none
  | some (_, rest) =>
    match splitFirst "</user_query>".data rest with
    | none => none
    | some (mid, _) => some ⟨stripList mid⟩

end Py

/-- The values json.loads can return: the scanners receive them from the
    json.loads oracle and take every Python-typed branch on them. -/
inductive JValue where
  | jnull
  | jbool (b : Bool)
  | jnum (n : Int)
  | jstr (s : String)
  | jarr (elems : List JValue)
  | jobj (fields : List (String × JValue))

namespace JValue

/-- Python v.get(key, default): AttributeError (none) when the receiver is
    not a dict.  json.loads yields dicts with unique keys, so the first
    binding is the binding. -/
def get : JValue → String → JValue → Option JValue
  | jobj fields, key, dflt => some ((fields.lookup key).getD dflt)
  | _, _, _ => none

/-- Python v[key]: KeyError or TypeError (none) when the key is missing or
    the receiver is not a dict. -/
def index : JValue → String → Option JValue
  | jobj fields, key => fields.lookup key
  | _, _ => none

/-- Python iteration "for x in v": lists yield their elements, strings yield
    their characters as one-character strings, dicts yield their keys; any
    other value raises TypeError (none). -/
def iter : JValue → Option (List JValue)
  | jarr xs => some xs
  | jstr s => some (s.data.map fun c => jstr ⟨[c]⟩)
  | jobj fields => some (fields.map fun f => jstr f.1)
  | _ => none

/-- Python v == "literal": true only when v is that very string. -/
def eqStr : JValue → String → Bool
  | jstr t, s => t == s
  | _, _ => false

/-- Python len(v): TypeError (none) on values without a length. -/
def len : JValue → Option Nat
  | jstr s => some s.length
  | jarr xs => some xs.length
  | jobj fields => some fields.length
  | _ => none

/-- Python "".join(parts): TypeError (none) when a part is not a string. -/
def joinStrs : List JValue → Option String
  | [] => some ""
  | jstr s :: rest => (joinStrs rest).map (fun t => s ++ t)
  | _ :: _ => none

end JValue

/-- The dict returned by transcript.py parse / indexer.py parse_transcript:
    {summary, messages, tool_calls, input_tokens, output_tokens}. -/
structure ScanResult where
  summary : String
  messages : Nat
  tool_calls : Nat
  input_tokens : Nat
  output_tokens : Nat
  deriving DecidableEq

/-- The all-zero/empty default result. -/
def ScanResult.zero : ScanResult :=
  { summary := "", messages := 0, tool_calls := 0, input_tokens := 0, output_tokens := 0 }

namespace Transcript

/-- transcript.py TranscriptStats: the shared single-pass accumulator
    (the Lean names drop the leading underscore of the char counters). -/
structure TranscriptStats where
  summary : String := ""
  messages : Nat := 0
  tool_calls : Nat := 0
  input_chars : Nat := 0
  output_chars : Nat := 0
  deriving DecidableEq

/-- TranscriptStats.add_message. -/
def add_message (st : TranscriptStats) (role : JValue) (text : String) :
    TranscriptStats :=
  let st := { st with messages := st.messages + 1 }
  if role.eqStr "user" then
    let st := { st with input_chars := st.input_chars + text.length }
    if st.summary == "" && text != "" then
      { st with summary := Py.takeStr 200 (Py.cleanText text) }
    else st
  else { st with output_chars := st.output_chars + text.length }

/-- TranscriptStats.to_dict: the char totals become token estimates by
    integer division by CHARS_PER_TOKEN = 4. -/
def to_dict (st : TranscriptStats) : ScanResult :=
  { summary := st.summary, messages := st.messages, tool_calls := st.tool_calls,
    input_tokens := st.input_chars / 4, output_tokens := st.output_chars / 4 }

/-- The content-block loop of transcript.py _parse_jsonl: tool_use blocks
    increment the counter at once, text blocks collect their "text" value
    (any JValue) for the join after the loop.  A none second component is a
    raised exception (a block without .get); the stats mutated so far are
    kept, the collected parts are lost. -/
def scanBlocks : List JValue → TranscriptStats →
    TranscriptStats × Option (List JValue)
  | [], st => (st, some [])
  | b :: rest, st =>
    match b.get "type" .jnull with
    | none => (st, none)
    | some ty =>
      if ty.eqStr "tool_use" then
        scanBlocks rest { st with tool_calls := st.tool_calls + 1 }
      else if ty.eqStr "text" then
        match b.get "text" (.jstr "") with
        | none => (st, none)
        | some t =>
          match scanBlocks rest st with
          | (st1, some parts) => (st1, some (t :: parts))
          | (st1, none) => (st1, none)
      else scanBlocks rest st

/-- One syntactically valid JSONL record in transcript.py _parse_jsonl.
    false = an exception escaped this record (d.get on a non-dict, a block
    without .get, or "".join over a non-string part); parse() swallows it
    and keeps the partial stats. -/
def scanRecord (v : JValue) (st : TranscriptStats) : TranscriptStats × Bool :=
  match v.get "role" (.jstr "") with
  | none => (st, false)
  | some role =>
    match v.get "message" (.jobj []) with
    | none => (st, false)
    | some msg =>
      match msg.get "content" (.jarr []) with
      | none => (st, false)
      | some content =>
        match content.iter with
        | none => (st, false)
        | some blocks =>
          match scanBlocks blocks st with
          | (st1, none) => (st1, false)
          | (st1, some parts) =>
            match JValue.joinStrs parts with
            | none => (st1, false)
            | some text => (add_message st1 role text, true)

/-- transcript.py _parse_jsonl over the file's lines; jloads is the
    json.loads oracle (none = JSONDecodeError, which counts the line as a
    contentless message).  The flag is false when an exception aborted the
    loop; parse() swallows it and keeps the partial stats. -/
def parse_jsonl (jloads : String → Option JValue) :
    List String → TranscriptStats → TranscriptStats × Bool
  | [], st => (st, true)
  | l :: ls, st =>
    let s := Py.strip l
    if s == "" then parse_jsonl jloads ls st
    else
      match jloads s with
      | none => parse_jsonl jloads ls { st with messages := st.messages + 1 }
      | some v =>
        match scanRecord v st with
        | (st1, true) => parse_jsonl jloads ls st1
        | (st1, false) => (st1, false)

/-- The line loop of transcript.py _parse_txt, threading current_role.
    Note the tool-call branch does not continue: the line also falls through
    to the role-based character accounting. -/
def txtLoop : List String → Option String → TranscriptStats → TranscriptStats
  | [], _, st => st
  | line :: ls, role, st =>
    let stripped := Py.strip line
    if stripped == "user:" || stripped == "assistant:" then
      txtLoop ls (some (Py.rstripColon stripped))
        { st with messages := st.messages + 1 }
    else
      let st :=
        if Py.startsWith "[Tool call]" stripped then
          { st with tool_calls := st.tool_calls + 1 }
        else st
      let st :=
        if role == some "user" then
          let st := { st with input_chars := st.input_chars + line.length }
          if st.summary == "" && stripped != "" &&
              !(Py.startsWith "<" stripped) then
            { st with summary := Py.takeStr 200 stripped }
          else st
        else if role == some "assistant" then
          { st with output_chars := st.output_chars + line.length }
        else st
      txtLoop ls role st

/-- transcript.py _parse_txt: the user_query summary (tag-stripped and
    collapsed by _clean_text) is assigned first, then the line loop runs. -/
def parse_txt (text : String) (st : TranscriptStats) : TranscriptStats :=
  let st :=
    match Py.userQuerySummaryRaw text with
    | some g => { st with summary := Py.takeStr 200 (Py.cleanText g) }
    | none => st
  txtLoop (Py.lines text) none st

/-- The stats object after the try block of transcript.py parse(): ext is
    get_ext(filepath), content the file text (none = open/read raised).  The
    stats object is shared with the format parsers, so an exception leaves
    the partial stats in place. -/
def parseStats (jloads : String → Option JValue) (ext : String)
    (content : Option String) : TranscriptStats :=
  match content with
  | none => {}
  | some text =>
    if ext == "jsonl" then (parse_jsonl jloads (Py.lines text) {}).1
    else if ext == "txt" then parse_txt text {}
    else {}

/-- transcript.py parse(filepath). -/
def parse (jloads : String → Option JValue) (ext : String)
    (content : Option String) : ScanResult :=
  to_dict (parseStats jloads ext content)

end Transcript

namespace Indexer

/-- The local accumulator variables of indexer.py _parse_jsonl. -/
structure JsonlAcc where
  summary : String := ""
  messages : Nat := 0
  tool_calls : Nat := 0
  input_chars : Nat := 0
  output_chars : Nat := 0
  first_user_seen : Bool := false
  deriving DecidableEq

/-- The content loop of indexer.py _parse_jsonl.  none = a raised exception
    (block without .get, len() of a length-less text value, or re.sub over a
    non-string first user text); parse_transcript discards everything then.
    Unlike transcript.py, characters are accumulated per block, and the
    summary comes from the first user text block alone, whether or not its
    cleaned form is empty. -/
def scanBlocks (role : JValue) : List JValue → JsonlAcc → Option JsonlAcc
  | [], acc => some acc
  | c :: rest, acc =>
    match c.get "type" (.jstr "") with
    | none => none
    | some ctype =>
      if ctype.eqStr "tool_use" then
        scanBlocks role rest { acc with tool_calls := acc.tool_calls + 1 }
      else if ctype.eqStr "text" then
        match c.get "text" (.jstr "") with
        | none => none
        | some t =>
          if role.eqStr "user" then
            match t.len with
            | none => none
            | some n =>
              let acc := { acc with input_chars := acc.input_chars + n }
              if !acc.first_user_seen then
                match t with
                | .jstr s =>
                  scanBlocks role rest
                    { acc with
                      summary := Py.takeStr 200 (Py.cleanText s)
                      first_user_seen := true }
                | _ => none
              else scanBlocks role rest acc
          else
            match t.len with
            | none => none
            | some n =>
              scanBlocks role rest { acc with output_chars := acc.output_chars + n }
      else scanBlocks role rest acc

/-- One syntactically valid record in indexer.py _parse_jsonl (the message
    counter was already incremented by the line loop). -/
def scanRecord (v : JValue) (acc : JsonlAcc) : Option JsonlAcc :=
  match v.get "role" (.jstr "") with
  | none => none
  | some role =>
    match v.get "message" (.jobj []) with
    | none => none
    | some msg =>
      match msg.get "content" (.jarr []) with
      | none => none
      | some content =>
        match content.iter with
        | none => none
        | some blocks => scanBlocks role blocks acc

/-- indexer.py _parse_jsonl over the file's lines: every non-empty line
    increments messages before json.loads is tried.  none = exception. -/
def parse_jsonl (jloads : String → Option JValue) :
    List String → JsonlAcc → Option JsonlAcc
  | [], acc => some acc
  | l :: ls, acc =>
    let s := Py.strip l
    if s == "" then parse_jsonl jloads ls acc
    else
      let acc := { acc with messages := acc.messages + 1 }
      match jloads s with
      | none => parse_jsonl jloads ls acc
      | some v =>
        match scanRecord v acc with
        | none => none
        | some acc1 => parse_jsonl jloads ls acc1

/-- The local accumulator variables of indexer.py _parse_txt. -/
structure TxtAcc where
  summary : String := ""
  messages : Nat := 0
  tool_calls : Nat := 0
  input_chars : Nat := 0
  output_chars : Nat := 0
  deriving DecidableEq

/-- The line loop of indexer.py _parse_txt: same algorithm as transcript.py
    _parse_txt (the tool-call branch also falls through to the character
    accounting). -/
def txtLoop : List String → Option String → TxtAcc → TxtAcc
  | [], _, acc => acc
  | line :: ls, role, acc =>
    let stripped := Py.strip line
    if stripped == "user:" then
      txtLoop ls (some "user") { acc with messages := acc.messages + 1 }
    else if stripped == "assistant:" then
      txtLoop ls (some "assistant") { acc with messages := acc.messages + 1 }
    else
      let acc :=
        if Py.startsWith "[Tool call]" stripped then
          { acc with tool_calls := acc.tool_calls + 1 }
        else acc
      let acc :=
        if role == some "user" then
          let acc := { acc with input_chars := acc.input_chars + line.length }
          if acc.summary == "" && stripped != "" &&
              !(Py.startsWith "<" stripped) then
            { acc with summary := Py.takeStr 200 stripped }
          else acc
        else if role == some "assistant" then
          { acc with output_chars := acc.output_chars + line.length }
        else acc
      txtLoop ls role acc

/-- indexer.py _parse_txt: the user_query summary here only collapses
    whitespace (" ".join(m.group(1).split())) — no tag stripping, unlike
    transcript.py. -/
def parse_txt (text : String) : TxtAcc :=
  let acc : TxtAcc := {}
  let acc :=
    match Py.userQuerySummaryRaw text with
    | some g => { acc with summary := Py.takeStr 200 ⟨Py.collapseWs g.data⟩ }
    | none => acc
  txtLoop (Py.lines text) none acc

/-- The dict built at the end of indexer.py _parse_jsonl. -/
def jsonlResult (acc : JsonlAcc) : ScanResult :=
  { summary := acc.summary, messages := acc.messages,
    tool_calls := acc.tool_calls, input_tokens := acc.input_chars / 4,
    output_tokens := acc.output_chars / 4 }

/-- The dict built at the end of indexer.py _parse_txt. -/
def txtResult (acc : TxtAcc) : ScanResult :=
  { summary := acc.summary, messages := acc.messages,
    tool_calls := acc.tool_calls, input_tokens := acc.input_chars / 4,
    output_tokens := acc.output_chars / 4 }

/-- indexer.py parse_transcript: result starts as the zero dict and is only
    replaced on a successful parse, so any exception yields the zero dict. -/
def parse_transcript (jloads : String → Option JValue) (ext : String)
    (content : Option String) : ScanResult :=
  match content with
  | none => ScanResult.zero
  | some text =>
    if ext == "jsonl" then
      match parse_jsonl jloads (Py.lines text) {} with
      | some acc => jsonlResult acc
      | none => ScanResult.zero
    else if ext == "txt" then txtResult (parse_txt text)
    else ScanResult.zero

/-- The user/other character totals of the accumulator that produced the
    returned dict of parse_transcript (zero when the zero dict was kept). -/
def parseChars (jloads : String → Option JValue) (ext : String)
    (content : Option String) : Nat × Nat :=
  match content with
  | none => (0, 0)
  | some text =>
    if ext == "jsonl" then
      match parse_jsonl jloads (Py.lines text) {} with
      | some acc => (acc.input_chars, acc.output_chars)
      | none => (0, 0)
    else if ext == "txt" then
      ((parse_txt text).input_chars, (parse_txt text).output_chars)
    else (0, 0)

end Indexer

/-- One printed line of the two preview renderers (transcript.py preview
    and the inline copy in indexer.py preview_transcript, which differs for
    txt text lines: it strips tags but does not collapse whitespace):
    tagged = a jsonl line "  marker [role] text" whose marker is the user or
    the assistant arrow; toolLine = a txt "  (tool marker) stripped" line
    (printed without truncation); textLine = a txt "  cleaned" line;
    truncMarker = the "  ... (truncated)" line. -/
inductive PrevLine where
  | tagged (isUser : Bool) (text : String)
  | toolLine (text : String)
  | textLine (text : String)
  | truncMarker
  deriving DecidableEq

namespace Transcript

/-- The block loop of transcript.py _preview_jsonl: find the first text
    block and hand back its raw "text" value.  error () = exception (a block
    without .get, block["text"] missing, or _clean_text over a non-string);
    preview() swallows it but the rendering stops. -/
def previewBlocks : List JValue → Except Unit (Option String)
  | [] => .ok none
  | b :: rest =>
    match b.get "type" .jnull with
    | none => .error ()
    | some ty =>
      if ty.eqStr "text" then
        match b.index "text" with
        | none => .error ()
        | some (.jstr t) => .ok (some t)
        | some _ => .error ()
      else previewBlocks rest

/-- One record of transcript.py _preview_jsonl: at most one rendered line
    per record — the first text block, cleaned and cut to 150 characters,
    tagged by whether role == "user".  tool_use blocks render nothing. -/
def previewRecord (v : JValue) : Except Unit (Option (Bool × String)) :=
  match v.get "role" (.jstr "?") with
  | none => .error ()
  | some role =>
    match v.get "message" (.jobj []) with
    | none => .error ()
    | some msg =>
      match msg.get "content" (.jarr []) with
      | none => .error ()
      | some content =>
        match content.iter with
        | none => .error ()
        | some blocks =>
          match previewBlocks blocks with
          | .error e => .error e
          | .ok none => .ok none
          | .ok (some t) =>
            .ok (some (role.eqStr "user", Py.takeStr 150 (Py.cleanText t)))

/-- transcript.py _preview_jsonl: the sequence of printed lines; the flag is
    false when an exception aborted the loop (swallowed by preview(), the
    lines printed so far stand). -/
def preview_jsonl (jloads : String → Option JValue) :
    List String → Nat → Nat → List PrevLine × Bool
  | [], _, _ => ([], true)
  | l :: ls, count, limit =>
    if limit ≤ count then ([.truncMarker], true)
    else
      let s := Py.strip l
      if s == "" then preview_jsonl jloads ls count limit
      else
        match jloads s with
        | none => preview_jsonl jloads ls count limit
        | some v =>
          match previewRecord v with
          | .error _ => ([], false)
          | .ok none => preview_jsonl jloads ls count limit
          | .ok (some (u, t)) =>
            let r := preview_jsonl jloads ls (count + 1) limit
            (.tagged u t :: r.1, r.2)

/-- transcript.py _preview_txt: the sequence of printed lines.  Tool-call
    lines print the stripped line without truncation; other qualifying lines
    print their cleaned text cut to 150 characters. -/
def preview_txt : List String → Nat → Nat → List PrevLine
  | [], _, _ => []
  | line :: ls, count, limit =>
    if limit ≤ count then [.truncMarker]
    else
      let s := Py.strip line
      if s == "user:" || s == "assistant:" then preview_txt ls count limit
      else if Py.startsWith "<user_query>" s || Py.startsWith "</user_query>" s then
        preview_txt ls count limit
      else if Py.startsWith "[Tool call]" s then
        .toolLine s :: preview_txt ls (count + 1) limit
      else if s != "" && !(Py.startsWith "[Tool result]" s) then
        let c := Py.cleanText s
        if c != "" then .textLine (Py.takeStr 150 c) :: preview_txt ls (count + 1) limit
        else preview_txt ls count limit
      else preview_txt ls count limit

end Transcript

namespace Paths

/-- paths.py _detect_drive_prefix.  isWin is the module constant _IS_WINDOWS
    and ex the (possibly memoised) os.path.exists oracle; parts[0].isalpha()
    is all-alphabetic and non-empty. -/
def detectDrive (isWin : Bool) (ex : String → Bool) (parts : List String) :
    String × Nat :=
  match parts with
  | p0 :: _ :: _ =>
    if p0.length == 1 && p0.data.all Char.isAlpha then
      let drive := Py.upper p0 ++ ":/"
      if isWin || ex drive || ex ("/" ++ p0) then (drive, 1) else ("", 0)
    else ("", 0)
  | _ => ("", 0)

/-- The candidate selection ending both solve variants: the first existing
    result in the order slash, dot, dash, else the first non-None of them
    (the results are never empty strings, so Python truthiness of a present
    result is always true). -/
def pick (ex : String → Bool) (rSlash : Option String) (rDot rDash : String) :
    String :=
  match rSlash with
  | some r =>
    if ex r then r
    else if ex rDot then rDot
    else if ex rDash then rDash
    else r
  | none =>
    if ex rDot then rDot
    else if ex rDash then rDash
    else rDot

/-- The path assembly used by the no-drive solve:
    prefix + "/" + segment if prefix else "/" + segment. -/
def joinSeg (pfx seg : String) : String :=
  if pfx != "" then pfx ++ "/" ++ seg else "/" ++ seg

/-- paths.py solve (the no-drive variant), recursing over parts[idx:]. -/
def solve (ex : String → Bool) : List String → String → String → String
  | [], seg, pfx => joinSeg pfx seg
  | part :: rest, seg, pfx =>
    let rDash := solve ex rest (seg ++ "-" ++ part) pfx
    let rDot := solve ex rest (seg ++ "." ++ part) pfx
    let cand := joinSeg pfx seg
    let rSlash := if ex cand then some (solve ex rest part cand) else none
    pick ex rSlash rDot rDash

/-- paths.py solve (the drive variant): the prefix always ends in "/". -/
def solveDrive (ex : String → Bool) : List String → String → String → String
  | [], seg, pfx => pfx ++ seg
  | part :: rest, seg, pfx =>
    let rDash := solveDrive ex rest (seg ++ "-" ++ part) pfx
    let rDot := solveDrive ex rest (seg ++ "." ++ part) pfx
    let cand := pfx ++ seg
    let rSlash := if ex cand then some (solveDrive ex rest part (cand ++ "/")) else none
    pick ex rSlash rDot rDash

/-- paths.py folder_to_path. -/
def folder_to_path (isWin : Bool) (ex : String → Bool) (folder_name : String) :
    String :=
  if Py.startsWith "var-" folder_name then "/" ++ Py.replaceDashSlash folder_name
  else
    match Py.splitOnChar '-' folder_name with
    | [] => "/"
    | [p] => "/" ++ p
    | p0 :: p1 :: rest =>
      let dp := detectDrive isWin ex (p0 :: p1 :: rest)
      if dp.1 != "" then
        if (p0 :: p1 :: rest).length ≤ dp.2 then dp.1
        else solveDrive ex rest p1 dp.1
      else solve ex (p1 :: rest) p0 ""

/-- The state of the functools.lru_cache on _path_exists: the memoised
    (path, answer) pairs (the 256-entry bound is immaterial to the claims:
    it only evicts, and an evicted entry is re-queried from the oracle). -/
abbrev Cache := List (String × Bool)

/-- paths.py _path_exists: a hit returns the memoised answer, a miss asks
    the oracle and memoises the answer. -/
def pathExistsC (ex : String → Bool) (c : Cache) (p : String) : Bool × Cache :=
  match c.lookup p with
  | some b => (b, c)
  | none => (ex p, (p, ex p) :: c)

/-- _detect_drive_prefix with the memoised existence check, including the
    short-circuit of the Python or. -/
def detectDriveC (isWin : Bool) (ex : String → Bool) (c : Cache)
    (parts : List String) : (String × Nat) × Cache :=
  match parts with
  | p0 :: _ :: _ =>
    if p0.length == 1 && p0.data.all Char.isAlpha then
      let drive := Py.upper p0 ++ ":/"
      if isWin then ((drive, 1), c)
      else
        let r1 := pathExistsC ex c drive
        if r1.1 then ((drive, 1), r1.2)
        else
          let r2 := pathExistsC ex r1.2 ("/" ++ p0)
          if r2.1 then ((drive, 1), r2.2) else (("", 0), r2.2)
    else (("", 0), c)
  | _ => (("", 0), c)

/-- The candidate selection with the memoised existence check, in the
    evaluation order of the Python for loop. -/
def pickC (ex : String → Bool) (c : Cache) (rSlash : Option String)
    (rDot rDash : String) : String × Cache :=
  match rSlash with
  | some r =>
    let e1 := pathExistsC ex c r
    if e1.1 then (r, e1.2)
    else
      let e2 := pathExistsC ex e1.2 rDot
      if e2.1 then (rDot, e2.2)
      else
        let e3 := pathExistsC ex e2.2 rDash
        if e3.1 then (rDash, e3.2) else (r, e3.2)
  | none =>
    let e2 := pathExistsC ex c rDot
    if e2.1 then (rDot, e2.2)
    else
      let e3 := pathExistsC ex e2.2 rDash
      if e3.1 then (rDash, e3.2) else (rDot, e3.2)

/-- solve (no-drive variant) with the memoised existence check, threading
    the cache in Python evaluation order: dash result, dot result, candidate
    check, slash result, then the selection. -/
def solveC (ex : String → Bool) :
    List String → String → String → Cache → String × Cache
  | [], seg, pfx, c => (joinSeg pfx seg, c)
  | part :: rest, seg, pfx, c =>
    let d1 := solveC ex rest (seg ++ "-" ++ part) pfx c
    let d2 := solveC ex rest (seg ++ "." ++ part) pfx d1.2
    let cand := joinSeg pfx seg
    let e := pathExistsC ex d2.2 cand
    if e.1 then
      let s := solveC ex rest part cand e.2
      pickC ex s.2 (some s.1) d2.1 d1.1
    else pickC ex e.2 none d2.1 d1.1

/-- solve (drive variant) with the memoised existence check. -/
def solveDriveC (ex : String → Bool) :
    List String → String → String → Cache → String × Cache
  | [], seg, pfx, c => (pfx ++ seg, c)
  | part :: rest, seg, pfx, c =>
    let d1 := solveDriveC ex rest (seg ++ "-" ++ part) pfx c
    let d2 := solveDriveC ex rest (seg ++ "." ++ part) pfx d1.2
    let cand := pfx ++ seg
    let e := pathExistsC ex d2.2 cand
    if e.1 then
      let s := solveDriveC ex rest part (cand ++ "/") e.2
      pickC ex s.2 (some s.1) d2.1 d1.1
    else pickC ex e.2 none d2.1 d1.1

/-- folder_to_path with the memoised existence check: one decode call run
    against a given prior cache state, returning the result and the cache it
    leaves behind for the next call. -/
def folder_to_pathC (isWin : Bool) (ex : String → Bool) (c : Cache)
    (folder_name : String) : String × Cache :=
  if Py.startsWith "var-" folder_name then
    ("/" ++ Py.replaceDashSlash folder_name, c)
  else
    match Py.splitOnChar '-' folder_name with
    | [] => ("/", c)
    | [p] => ("/" ++ p, c)
    | p0 :: p1 :: rest =>
      let d := detectDriveC isWin ex c (p0 :: p1 :: rest)
      if d.1.1 != "" then
        if (p0 :: p1 :: rest).length ≤ d.1.2 then (d.1.1, d.2)
        else solveDriveC ex rest p1 d.1.1 d.2
      else solveC ex (p1 :: rest) p0 "" d.2

/-- Every memoised answer in the cache is false — the cache states reachable
    when no queried path exists anywhere. -/
def allFalse (c : Cache) : Bool := c.all (fun e => !e.2)

end Paths

/-- The number of non-empty lines (after strip — the emptiness test both
    jsonl scanners apply) of a line list. -/
def nonEmptyLines (ls : List String) : Nat :=
  (ls.filter (fun l => Py.strip l != "")).length

/-- A complete angle-bracket tag — an occurrence of the pattern the summary
    cleaner removes, lt, one or more non-gt characters, gt — somewhere in a
    character list. -/
def hasTag : List Char → Bool
  | [] => false
  | c :: cs =>
    if c == '<' then
      (match cs with
       | [] => false
       | d :: _ => d != '>' && cs.contains '>') || hasTag cs
    else hasTag cs

/-- Every lt is either directly closed by a gt or never followed by one: an
    invariant of tag-stripped text, incompatible with a complete tag. -/
def okLt : List Char → Bool
  | [] => true
  | c :: cs =>
    if c == '<' then
      (if cs.head? == some '>' then okLt cs else !cs.contains '>')
    else okLt cs

/-- A txt line the preview renderer prints: a tool-call line, or a
    non-empty, non-marker, non-tool-result line with non-empty cleaned
    text. -/
def txtQualifies (line : String) : Bool :=
  let s := Py.strip line
  !(s == "user:" || s == "assistant:") &&
  !(Py.startsWith "<user_query>" s || Py.startsWith "</user_query>" s) &&
  (Py.startsWith "[Tool call]" s ||
    (s != "" && !(Py.startsWith "[Tool result]" s) && Py.cleanText s != ""))

/-- The number of txt lines the preview renderer would print. -/
def qualTxt (ls : List String) : Nat := (ls.filter txtQualifies).length

/-- A jsonl line the preview renderer prints a line for: non-empty, parsed,
    and holding a record whose first text block renders. -/
def jsonlQualifies (jloads : String → Option JValue) (line : String) : Bool :=
  let s := Py.strip line
  s != "" &&
  (match jloads s with
   | none => false
   | some v =>
     match Transcript.previewRecord v with
     | .ok (some _) => true
     | _ => false)

/-- The number of jsonl lines the preview renderer would print. -/
def qualJsonl (jloads : String → Option JValue) (ls : List String) : Nat :=
  (ls.filter (jsonlQualifies jloads)).length

/-- The truncation-marker test on an emitted line. -/
def PrevLine.isMarker : PrevLine → Bool
  | .truncMarker => true
  | _ => false

/-- The number of emitted content lines (printed lines other than the
    truncation marker). -/
def contentCount (out : List PrevLine) : Nat :=
  (out.filter (fun l => !l.isMarker)).length

/-- A content block in the canonical transcript shape: a dict whose "text"
    value is a string whenever its "type" is "text".  Such a block raises in
    neither scanner. -/
def blockOk : JValue → Bool
  | .jobj fields =>
    (match fields.lookup "type" with
     | some ty =>
       if ty.eqStr "text" then
         match fields.lookup "text" with
         | some (.jstr _) => true
         | _ => false
       else true
     | none => true)
  | _ => false

/-- A record in the canonical transcript shape: a dict whose "message"
    value, when present, is a dict, whose "content" value, when present, is
    a list of canonical blocks.  Such a record raises in neither scanner. -/
def recordWf : JValue → Bool
  | .jobj fields =>
    (match fields.lookup "message" with
     | some (.jobj mf) =>
       (match mf.lookup "content" with
        | some (.jarr blocks) => blocks.all blockOk
        | some _ => false
        | none => true)
     | some _ => false
     | none => true)
  | _ => false

/-- A jsonl line both scanners survive: blank, unparseable, or holding a
    canonical record. -/
def lineWf (jloads : String → Option JValue) (line : String) : Bool :=
  Py.strip line == "" ||
  (match jloads (Py.strip line) with
   | none => true
   | some v => recordWf v)

/-- A jsonl input on which neither scanner raises internally. -/
def inputWf (jloads : String → Option JValue) (ls : List String) : Bool :=
  ls.all (lineWf jloads)

/-- Numeric agreement of two scan results (all fields but the summary). -/
def numericEq (a b : ScanResult) : Bool :=
  a.messages == b.messages && a.tool_calls == b.tool_calls &&
  a.input_tokens == b.input_tokens && a.output_tokens == b.output_tokens

/-- Equality of the numeric accumulator fields of the two jsonl scanners —
    the correspondence the equivalence proof threads through the loops. -/
def statsRelEq (st : Transcript.TranscriptStats) (acc : Indexer.JsonlAcc) : Prop :=
  st.messages = acc.messages ∧ st.tool_calls = acc.tool_calls ∧
  st.input_chars = acc.input_chars ∧ st.output_chars = acc.output_chars

/-- Equality of the numeric accumulator fields of the two txt scanners. -/
def txtRelEq (st : Transcript.TranscriptStats) (acc : Indexer.TxtAcc) : Prop :=
  st.messages = acc.messages ∧ st.tool_calls = acc.tool_calls ∧
  st.input_chars = acc.input_chars ∧ st.output_chars = acc.output_chars

/-- A concrete canonical record {role, message: {content: [{type: "text",
    text}]}} for the counterexamples and witnesses. -/
def demoRec (role text : String) : JValue :=
  .jobj [("role", .jstr role),
    ("message", .jobj [("content",
      .jarr [.jobj [("type", .jstr "text"), ("text", .jstr text)]])])]

/-- A concrete json.loads oracle for the counterexamples and witnesses:
    "42" parses to the number 42 (valid JSON, not an object); "U"/"A" to
    one-text-block user/assistant records; "M" to a user record with two
    text parts; "T" to a record with one tool_use part and no text part;
    "B" to a user record whose text block lacks the "text" key; everything
    else fails to parse. -/
def demoLoads : String → Option JValue := fun s =>
  if s == "42" then some (.jnum 42)
  else if s == "U" then some (demoRec "user" "hello world")
  else if s == "A" then some (demoRec "assistant" "hi there, how can I help?")
  else if s == "M" then some (.jobj [("role", .jstr "user"),
    ("message", .jobj [("content", .jarr
      [.jobj [("type", .jstr "text"), ("text", .jstr "a")],
       .jobj [("type", .jstr "text"), ("text", .jstr "b")]])])])
  else if s == "T" then some (.jobj [("role", .jstr "assistant"),
    ("message", .jobj [("content", .jarr [.jobj [("type", .jstr "tool_use")]])])])
  else if s == "B" then some (.jobj [("role", .jstr "user"),
    ("message", .jobj [("content", .jarr [.jobj [("type", .jstr "text")]])])])
  else none

namespace Indexer

/-- The block loop of the jsonl branch of indexer.py preview_transcript:
    find the first text block and hand back its raw "text" value.  error ()
    = exception (a block without .get, c["text"] missing, or re.sub over a
    non-string); preview_transcript swallows it but the rendering stops. -/
def previewBlocks : List JValue → Except Unit (Option String)
  | [] => .ok none
  | c :: rest =>
    match c.get "type" .jnull with
    | none => .error ()
    | some ty =>
      if ty.eqStr "text" then
        match c.index "text" with
        | none => .error ()
        | some (.jstr t) => .ok (some t)
        | some _ => .error ()
      else previewBlocks rest

/-- One record of the jsonl branch of indexer.py preview_transcript: the
    first text block renders tag-stripped, stripped, whitespace-collapsed
    and cut to 150 characters (the same text transcript.py renders, since
    collapsing already drops the outer whitespace). -/
def previewRecord (v : JValue) : Except Unit (Option (Bool × String)) :=
  match v.get "role" (.jstr "?") with
  | none => .error ()
  | some role =>
    match v.get "message" (.jobj []) with
    | none => .error ()
    | some msg =>
      match msg.get "content" (.jarr []) with
      | none => .error ()
      | some content =>
        match content.iter with
        | none => .error ()
        | some blocks =>
          match previewBlocks blocks with
          | .error e => .error e
          | .ok none => .ok none
          | .ok (some t) =>
            .ok (some (role.eqStr "user", Py.takeStr 150
              ⟨Py.collapseWs (Py.stripList (Py.stripTagsList t.data))⟩))

/-- The jsonl branch of indexer.py preview_transcript: the printed lines;
    the flag is false when an exception aborted the loop (swallowed, the
    lines printed so far stand). -/
def preview_jsonl (jloads : String → Option JValue) :
    List String → Nat → Nat → List PrevLine × Bool
  | [], _, _ => ([], true)
  | l :: ls, count, limit =>
    if limit ≤ count then ([.truncMarker], true)
    else
      let s := Py.strip l
      if s == "" then preview_jsonl jloads ls count limit
      else
        match jloads s with
        | none => preview_jsonl jloads ls count limit
        | some v =>
          match previewRecord v with
          | .error _ => ([], false)
          | .ok none => preview_jsonl jloads ls count limit
          | .ok (some (u, t)) =>
            let r := preview_jsonl jloads ls (count + 1) limit
            (.tagged u t :: r.1, r.2)

/-- The txt branch of indexer.py preview_transcript.  Tool-call lines print
    the stripped line without truncation; other qualifying lines print the
    tag-stripped and stripped — but, unlike transcript.py, not
    whitespace-collapsed — text cut to 150 characters. -/
def preview_txt : List String → Nat → Nat → List PrevLine
  | [], _, _ => []
  | line :: ls, count, limit =>
    if limit ≤ count then [.truncMarker]
    else
      let s := Py.strip line
      if s == "user:" || s == "assistant:" then preview_txt ls count limit
      else if Py.startsWith "<user_query>" s || Py.startsWith "</user_query>" s then
        preview_txt ls count limit
      else if Py.startsWith "[Tool call]" s then
        .toolLine s :: preview_txt ls (count + 1) limit
      else if s != "" && !(Py.startsWith "[Tool result]" s) then
        let c := Py.strip ⟨Py.stripTagsList s.data⟩
        if c != "" then .textLine (Py.takeStr 150 c) :: preview_txt ls (count + 1) limit
        else preview_txt ls count limit
      else preview_txt ls count limit

end Indexer

/-- A txt line the indexer.py preview prints: same tests as transcript.py
    except the text test strips tags and outer whitespace without
    collapsing. -/
def txtQualifiesI (line : String) : Bool :=
  let s := Py.strip line
  !(s == "user:" || s == "assistant:") &&
  !(Py.startsWith "<user_query>" s || Py.startsWith "</user_query>" s) &&
  (Py.startsWith "[Tool call]" s ||
    (s != "" && !(Py.startsWith "[Tool result]" s) &&
      Py.strip ⟨Py.stripTagsList s.data⟩ != ""))

/-- The number of txt lines the indexer.py preview would print. -/
def qualTxtI (ls : List String) : Nat := (ls.filter txtQualifiesI).length

/-- A jsonl line the indexer.py preview prints a line for. -/
def jsonlQualifiesI (jloads : String → Option JValue) (line : String) : Bool :=
  let s := Py.strip line
  s != "" &&
  (match jloads s with
   | none => false
   | some v =>
     match Indexer.previewRecord v with
     | .ok (some _) => true
     | _ => false)

/-- The number of jsonl lines the indexer.py preview would print. -/
def qualJsonlI (jloads : String → Option JValue) (ls : List String) : Nat :=
  (ls.filter (jsonlQualifiesI jloads)).length

/-! ## Claim theorems -/

/-- C1: transcript.py parse and indexer.py parse_transcript never propagate
    an error (both embeddings are total functions); whenever the file cannot
    be read (content = none) or the extension is neither of the two
    supported formats, both return the all-zero/empty ScanResult. -/
theorem c1_parse_silent_default (jloads : String → Option JValue)
    (ext : String) (content : Option String)
    (h : content = none ∨ (ext ≠ "jsonl" ∧ ext ≠ "txt")) :
    Transcript.parse jloads ext content = ScanResult.zero ∧
    Indexer.parse_transcript jloads ext content = ScanResult.zero := by
  rcases h with h | ⟨h1, h2⟩
  · subst h
    exact ⟨by simp [Transcript.parse, Transcript.parseStats,
      Transcript.to_dict, ScanResult.zero], rfl⟩
  · cases content with
    | none => exact ⟨by simp [Transcript.parse, Transcript.parseStats,
        Transcript.to_dict, ScanResult.zero], rfl⟩
    | some text =>
      have e1 : (ext == "jsonl") = false := by
        simpa using h1
      have e2 : (ext == "txt") = false := by
        simpa using h2
      constructor
      · simp [Transcript.parse, Transcript.parseStats, e1, e2,
          Transcript.to_dict, ScanResult.zero]
      · simp [Indexer.parse_transcript, e1, e2]

/-- Witness for C1: a concrete unsupported extension. -/
theorem c1_parse_silent_default_witness :
    Transcript.parse demoLoads "md" (some "x") = ScanResult.zero ∧
    Indexer.parse_transcript demoLoads "md" (some "x") = ScanResult.zero :=
  c1_parse_silent_default demoLoads "md" (some "x") (Or.inr (by decide))

/-- C2 counterexample: for the encoded name "c-x" under an existence oracle
    for which "/c" exists, the drive-prefix detection of paths.py fires and
    folder_to_path returns "C:/x", which does not start with the root
    separator. -/
theorem c2_folder_to_path_cex :
    Paths.folder_to_path false (fun p => p == "/c") "c-x" = "C:/x" ∧
    ((Paths.folder_to_path false (fun p => p == "/c") "c-x").data.head?
      == some '/') = false :=
  ⟨by decide, by decide⟩

/-- C6 counterexample: in a Format-B transcript, a tool-call line does feed
    the active role's character total (16 characters, 4 input tokens) and
    even becomes the summary, in both implementations — it does not only
    increment the tool-call counter. -/
theorem c6_txt_tool_cex :
    Transcript.parse demoLoads "txt" (some "user:\n[Tool call] abcd") =
      { summary := "[Tool call] abcd", messages := 1, tool_calls := 1,
        input_tokens := 4, output_tokens := 0 } ∧
    Indexer.parse_transcript demoLoads "txt" (some "user:\n[Tool call] abcd") =
      { summary := "[Tool call] abcd", messages := 1, tool_calls := 1,
        input_tokens := 4, output_tokens := 0 } :=
  ⟨by decide, by decide⟩

/-- The indexer token fields divide the character totals that produced the
    returned dict. -/
theorem indexer_tokens_div (jloads : String → Option JValue) (ext : String)
    (content : Option String) :
    (Indexer.parse_transcript jloads ext content).input_tokens =
      (Indexer.parseChars jloads ext content).1 / 4 ∧
    (Indexer.parse_transcript jloads ext content).output_tokens =
      (Indexer.parseChars jloads ext content).2 / 4 := by
  cases content with
  | none =>
    exact ⟨by simp [Indexer.parse_transcript, Indexer.parseChars,
      ScanResult.zero], by simp [Indexer.parse_transcript, Indexer.parseChars,
      ScanResult.zero]⟩
  | some text =>
    by_cases hj : (ext == "jsonl") = true
    · cases hp : Indexer.parse_jsonl jloads (Py.lines text) {} with
      | none =>
        simp [Indexer.parse_transcript, Indexer.parseChars, hj, hp,
          ScanResult.zero]
      | some acc =>
        simp [Indexer.parse_transcript, Indexer.parseChars, hj, hp,
          Indexer.jsonlResult]
    · by_cases ht : (ext == "txt") = true
      · simp [Indexer.parse_transcript, Indexer.parseChars, hj, ht,
          Indexer.txtResult]
      · simp [Indexer.parse_transcript, Indexer.parseChars, hj, ht,
          ScanResult.zero]

/-- C4: in both implementations and for every input and format, the token
    estimates are exactly the accumulated user/non-user character totals of
    the scan divided by four — truncating integer division, computed
    independently for the two totals (the bounds state the truncation with
    no rounding). -/
theorem c4_tokens_quarter_chars (jloads : String → Option JValue)
    (ext : String) (content : Option String) :
    (Transcript.parse jloads ext content).input_tokens =
      (Transcript.parseStats jloads ext content).input_chars / 4 ∧
    (Transcript.parse jloads ext content).output_tokens =
      (Transcript.parseStats jloads ext content).output_chars / 4 ∧
    4 * (Transcript.parse jloads ext content).input_tokens ≤
      (Transcript.parseStats jloads ext content).input_chars ∧
    (Transcript.parseStats jloads ext content).input_chars <
      4 * (Transcript.parse jloads ext content).input_tokens + 4 ∧
    4 * (Transcript.parse jloads ext content).output_tokens ≤
      (Transcript.parseStats jloads ext content).output_chars ∧
    (Transcript.parseStats jloads ext content).output_chars <
      4 * (Transcript.parse jloads ext content).output_tokens + 4 ∧
    (Indexer.parse_transcript jloads ext content).input_tokens =
      (Indexer.parseChars jloads ext content).1 / 4 ∧
    (Indexer.parse_transcript jloads ext content).output_tokens =
      (Indexer.parseChars jloads ext content).2 / 4 := by
  refine ⟨rfl, rfl, ?_, ?_, ?_, ?_,
    (indexer_tokens_div jloads ext content).1,
    (indexer_tokens_div jloads ext content).2⟩ <;>
  · have h := Nat.div_add_mod
      ((Transcript.parseStats jloads ext content).input_chars) 4
    have h2 := Nat.div_add_mod
      ((Transcript.parseStats jloads ext content).output_chars) 4
    have m1 : (Transcript.parseStats jloads ext content).input_chars % 4 < 4 :=
      Nat.mod_lt _ (by decide)
    have m2 : (Transcript.parseStats jloads ext content).output_chars % 4 < 4 :=
      Nat.mod_lt _ (by decide)
    simp only [Transcript.parse, Transcript.to_dict]
    omega

/-- The candidate selection returns one of its three candidates. -/
theorem pick_cases (ex : String → Bool) (rSlash : Option String)
    (rDot rDash : String) :
    Paths.pick ex rSlash rDot rDash = rDot ∨
    Paths.pick ex rSlash rDot rDash = rDash ∨
    ∃ r, rSlash = some r ∧ Paths.pick ex rSlash rDot rDash = r := by
  cases rSlash with
  | none =>
    simp only [Paths.pick]
    split_ifs with h1 h2
    · exact Or.inl rfl
    · exact Or.inr (Or.inl rfl)
    · exact Or.inl rfl
  | some r =>
    simp only [Paths.pick]
    split_ifs with h1 h2 h3
    · exact Or.inr (Or.inr ⟨r, rfl, rfl⟩)
    · exact Or.inl rfl
    · exact Or.inr (Or.inl rfl)
    · exact Or.inr (Or.inr ⟨r, rfl, rfl⟩)

/-- joinSeg starts with the root separator when its prefix is empty or
    itself starts with the root separator. -/
theorem joinSeg_head (pfx seg : String)
    (h : pfx = "" ∨ pfx.data.head? = some '/') :
    (Paths.joinSeg pfx seg).data.head? = some '/' := by
  rcases h with h | h
  · subst h
    show (Paths.joinSeg "" seg).data.head? = some '/'
    unfold Paths.joinSeg
    rw [if_neg (by decide)]
    rw [String.data_append]
    rfl
  · have hne : pfx ≠ "" := by
      intro e
      subst e
      simp at h
    unfold Paths.joinSeg
    rw [if_pos (by simpa using hne)]
    rw [String.data_append, String.data_append]
    cases hd : pfx.data with
    | nil =>
      rw [hd] at h
      simp at h
    | cons c cs =>
      rw [hd] at h
      simpa using h

/-- Every result of the no-drive solve starts with the root separator, for
    a prefix that is empty or itself starts with the root separator. -/
theorem solve_head (ex : String → Bool) :
    ∀ (rest : List String) (seg pfx : String),
    (pfx = "" ∨ pfx.data.head? = some '/') →
    (Paths.solve ex rest seg pfx).data.head? = some '/' := by
  intro rest
  induction rest with
  | nil =>
    intro seg pfx h
    exact joinSeg_head pfx seg h
  | cons part rest ih =>
    intro seg pfx h
    show (Paths.solve ex (part :: rest) seg pfx).data.head? = some '/'
    unfold Paths.solve
    rcases pick_cases ex
        (if ex (Paths.joinSeg pfx seg) then
          some (Paths.solve ex rest part (Paths.joinSeg pfx seg)) else none)
        (Paths.solve ex rest (seg ++ "." ++ part) pfx)
        (Paths.solve ex rest (seg ++ "-" ++ part) pfx) with
      hp | hp | ⟨r, hr, hp⟩
    · rw [hp]
      exact ih (seg ++ "." ++ part) pfx h
    · rw [hp]
      exact ih (seg ++ "-" ++ part) pfx h
    · rw [hp]
      by_cases hc : ex (Paths.joinSeg pfx seg) = true
      · rw [if_pos hc] at hr
        have : r = Paths.solve ex rest part (Paths.joinSeg pfx seg) :=
          (Option.some_inj.mp hr).symm
        rw [this]
        exact ih part (Paths.joinSeg pfx seg) (Or.inr (joinSeg_head pfx seg h))
      · rw [if_neg hc] at hr
        exact absurd hr (by simp)

/-- Every result of the drive solve extends any prefix of its running
    prefix. -/
theorem solveDrive_pfx (ex : String → Bool) (p0 : String) :
    ∀ (rest : List String) (seg pfx : String),
    p0.data <+: pfx.data →
    p0.data <+: (Paths.solveDrive ex rest seg pfx).data := by
  intro rest
  induction rest with
  | nil =>
    intro seg pfx h
    show p0.data <+: (pfx ++ seg).data
    rw [String.data_append]
    exact h.trans (List.prefix_append _ _)
  | cons part rest ih =>
    intro seg pfx h
    show p0.data <+: (Paths.solveDrive ex (part :: rest) seg pfx).data
    unfold Paths.solveDrive
    rcases pick_cases ex
        (if ex (pfx ++ seg) then
          some (Paths.solveDrive ex rest part (pfx ++ seg ++ "/")) else none)
        (Paths.solveDrive ex rest (seg ++ "." ++ part) pfx)
        (Paths.solveDrive ex rest (seg ++ "-" ++ part) pfx) with
      hp | hp | ⟨r, hr, hp⟩
    · rw [hp]
      exact ih (seg ++ "." ++ part) pfx h
    · rw [hp]
      exact ih (seg ++ "-" ++ part) pfx h
    · rw [hp]
      by_cases hc : ex (pfx ++ seg) = true
      · rw [if_pos hc] at hr
        have hre : r = Paths.solveDrive ex rest part (pfx ++ seg ++ "/") :=
          (Option.some_inj.mp hr).symm
        rw [hre]
        refine ih part (pfx ++ seg ++ "/") ?_
        rw [String.data_append, String.data_append]
        exact h.trans ((List.prefix_append _ _).trans (List.prefix_append _ _))
      · rw [if_neg hc] at hr
        exact absurd hr (by simp)

/-- C2 amended: folder_to_path never fails (it is total), and its result
    starts with the root separator — except when _detect_drive_prefix
    detects a drive, in which case the result starts with that drive prefix
    (an uppercase letter followed by ":/") instead. -/
theorem c2_folder_to_path_root (isWin : Bool) (ex : String → Bool)
    (name : String) :
    (Paths.folder_to_path isWin ex name).data.head? = some '/' ∨
    ((Paths.detectDrive isWin ex (Py.splitOnChar '-' name)).1 ≠ "" ∧
      (Paths.detectDrive isWin ex (Py.splitOnChar '-' name)).1.data <+:
        (Paths.folder_to_path isWin ex name).data) := by
  unfold Paths.folder_to_path
  by_cases hv : Py.startsWith "var-" name = true
  · rw [if_pos hv]
    left
    rw [String.data_append]
    rfl
  · rw [if_neg hv]
    cases hsp : Py.splitOnChar '-' name with
    | nil =>
      left
      rfl
    | cons p ps =>
      cases ps with
      | nil =>
        left
        rw [String.data_append]
        rfl
      | cons p1 rest =>
        by_cases hd :
            ((Paths.detectDrive isWin ex (p :: p1 :: rest)).1 != "") = true
        · simp only [hd, if_true]
          right
          refine ⟨by simpa using hd, ?_⟩
          by_cases hl : (p :: p1 :: rest).length ≤
              (Paths.detectDrive isWin ex (p :: p1 :: rest)).2
          · simp only [hl, if_true]
            exact List.prefix_refl _
          · simp only [hl, if_false]
            exact solveDrive_pfx ex _ rest p1 _ (List.prefix_refl _)
        · simp only [hd, if_false]
          left
          exact solve_head ex (p1 :: rest) p "" (Or.inl rfl)

/-- A stripped line carrying the tool-call marker is not a role marker, not
    empty, and does not start with lt. -/
theorem toolMarker_facts (s : String)
    (h : Py.startsWith "[Tool call]" s = true) :
    (s == "user:") = false ∧ (s == "assistant:") = false ∧
    (s != "") = true ∧ Py.startsWith "<" s = false := by
  obtain ⟨t, ht⟩ := List.isPrefixOf_iff_prefix.mp h
  refine ⟨?_, ?_, ?_, ?_⟩
  · cases hq : s == "user:" with
    | false => rfl
    | true =>
      rw [eq_of_beq hq] at h
      exact absurd h (by decide)
  · cases hq : s == "assistant:" with
    | false => rfl
    | true =>
      rw [eq_of_beq hq] at h
      exact absurd h (by decide)
  · cases hq : s == "" with
    | false => simp [bne, hq]
    | true =>
      rw [eq_of_beq hq] at h
      exact absurd h (by decide)
  · show List.isPrefixOf "<".data s.data = false
    rw [← ht]
    rfl

/-- C6 amended: in both implementations, a Format-B line whose stripped form
    begins with the tool-call marker increments the tool-call counter
    regardless of the active role — but, because the branch falls through,
    its raw length is ALSO added to the active role's character total
    (exactly like an ordinary content line), and it even becomes the summary
    when the active role is user and no summary was captured yet; scanning
    then continues from that state. -/
theorem c6_txt_tool_line (line : String) (ls : List String)
    (role : Option String) (st : Transcript.TranscriptStats)
    (acc : Indexer.TxtAcc)
    (h : Py.startsWith "[Tool call]" (Py.strip line) = true) :
    Transcript.txtLoop (line :: ls) role st =
      Transcript.txtLoop ls role (Transcript.txtLoop [line] role st) ∧
    (Transcript.txtLoop [line] role st).messages = st.messages ∧
    (Transcript.txtLoop [line] role st).tool_calls = st.tool_calls + 1 ∧
    (Transcript.txtLoop [line] role st).input_chars =
      st.input_chars + (if role == some "user" then line.length else 0) ∧
    (Transcript.txtLoop [line] role st).output_chars =
      st.output_chars + (if role == some "assistant" then line.length else 0) ∧
    (Transcript.txtLoop [line] role st).summary =
      (if role == some "user" && st.summary == "" then
        Py.takeStr 200 (Py.strip line) else st.summary) ∧
    Indexer.txtLoop (line :: ls) role acc =
      Indexer.txtLoop ls role (Indexer.txtLoop [line] role acc) ∧
    (Indexer.txtLoop [line] role acc).messages = acc.messages ∧
    (Indexer.txtLoop [line] role acc).tool_calls = acc.tool_calls + 1 ∧
    (Indexer.txtLoop [line] role acc).input_chars =
      acc.input_chars + (if role == some "user" then line.length else 0) ∧
    (Indexer.txtLoop [line] role acc).output_chars =
      acc.output_chars + (if role == some "assistant" then line.length else 0) := by
  obtain ⟨h1, h2, h3, h4⟩ := toolMarker_facts (Py.strip line) h
  by_cases hu : (role == some "user") = true
  · have ha : (role == some "assistant") = false := by
      rw [eq_of_beq hu]
      decide
    refine ⟨?_, ?_, ?_, ?_, ?_, ?_, ?_, ?_, ?_, ?_, ?_⟩ <;>
      by_cases hs : (st.summary == "") = true <;>
      by_cases hs2 : (acc.summary == "") = true <;>
      simp [Transcript.txtLoop, Indexer.txtLoop, h, h1, h2, h3, h4,
        hu, ha, hs, hs2]
  · by_cases ha : (role == some "assistant") = true <;>
      refine ⟨?_, ?_, ?_, ?_, ?_, ?_, ?_, ?_, ?_, ?_, ?_⟩ <;>
      by_cases hs : (st.summary == "") = true <;>
      by_cases hs2 : (acc.summary == "") = true <;>
      simp [Transcript.txtLoop, Indexer.txtLoop, h, h1, h2, h3, h4,
        hu, ha, hs, hs2]

/-- Witness for C6 at a concrete tool-call line with the user role active. -/
theorem c6_txt_tool_line_witness :
    (Transcript.txtLoop ["[Tool call] xy"] (some "user")
      ({} : Transcript.TranscriptStats)).tool_calls =
      ({} : Transcript.TranscriptStats).tool_calls + 1 ∧
    (Transcript.txtLoop ["[Tool call] xy"] (some "user")
      ({} : Transcript.TranscriptStats)).input_chars =
      ({} : Transcript.TranscriptStats).input_chars +
        (if (some "user" : Option String) == some "user" then
          ("[Tool call] xy" : String).length else 0) :=
  ⟨(c6_txt_tool_line "[Tool call] xy" [] (some "user") {} {} (by decide)).2.2.1,
   (c6_txt_tool_line "[Tool call] xy" [] (some "user") {} {}
     (by decide)).2.2.2.1⟩

/-- C3 counterexample: the single non-empty line "42" is valid JSON but not
    an object, so d.get("role") raises AttributeError and the scan aborts:
    both implementations report 0 messages although the input has one
    non-empty line. -/
theorem c3_count_cex :
    nonEmptyLines (Py.lines "42") = 1 ∧
    (Transcript.parse demoLoads "jsonl" (some "42")).messages = 0 ∧
    (Indexer.parse_transcript demoLoads "jsonl" (some "42")).messages = 0 :=
  ⟨by decide, by decide, by decide⟩

/-- The Python string-equality test succeeds exactly on that string. -/
theorem eqStr_iff (v : JValue) (s : String) :
    v.eqStr s = true ↔ v = .jstr s := by
  cases v <;> simp [JValue.eqStr]

/-- Over canonical blocks the two jsonl block loops correspond: transcript.py
    collects exactly the (string) text parts and adds some k tool calls
    without touching the other fields, while indexer.py adds the same k tool
    calls plus the joined text length to the active role's character side;
    neither loop raises. -/
theorem blocks_par (role : JValue) :
    ∀ (blocks : List JValue), blocks.all blockOk = true →
    ∀ (st : Transcript.TranscriptStats) (acc : Indexer.JsonlAcc),
    ∃ (k : Nat) (parts : List JValue) (txt : String)
      (st1 : Transcript.TranscriptStats) (acc1 : Indexer.JsonlAcc),
      Transcript.scanBlocks blocks st = (st1, some parts) ∧
      JValue.joinStrs parts = some txt ∧
      Indexer.scanBlocks role blocks acc = some acc1 ∧
      st1.summary = st.summary ∧
      st1.messages = st.messages ∧
      st1.tool_calls = st.tool_calls + k ∧
      st1.input_chars = st.input_chars ∧
      st1.output_chars = st.output_chars ∧
      acc1.messages = acc.messages ∧
      acc1.tool_calls = acc.tool_calls + k ∧
      acc1.input_chars = acc.input_chars +
        (if role.eqStr "user" then txt.length else 0) ∧
      acc1.output_chars = acc.output_chars +
        (if role.eqStr "user" then 0 else txt.length) := by
  intro blocks
  induction blocks with
  | nil =>
    intro _ st acc
    exact ⟨0, [], "", st, acc, rfl, rfl, rfl, rfl, rfl, rfl, rfl, rfl,
      rfl, rfl, by simp, by simp⟩
  | cons b rest ih =>
    intro hall st acc
    rw [List.all_cons, Bool.and_eq_true] at hall
    have hb : blockOk b = true := hall.1
    have hrest : rest.all blockOk = true := hall.2
    cases b with
    | jnull => exact absurd hb (by simp [blockOk])
    | jbool x => exact absurd hb (by simp [blockOk])
    | jnum x => exact absurd hb (by simp [blockOk])
    | jstr x => exact absurd hb (by simp [blockOk])
    | jarr x => exact absurd hb (by simp [blockOk])
    | jobj fields =>
      simp only [blockOk] at hb
      cases hlt : fields.lookup "type" with
      | none =>
        rw [hlt] at hb
        obtain ⟨k, parts, txt, st1, acc1, e1, e2, e3, e4, e5, e6, e7, e8,
          e9, e10, e11, e12⟩ := ih hrest st acc
        refine ⟨k, parts, txt, st1, acc1, ?_, e2, ?_, e4, e5, e6, e7, e8,
          e9, e10, e11, e12⟩
        · simpa only [Transcript.scanBlocks, JValue.get, hlt, Option.getD,
            JValue.eqStr] using e1
        · simpa only [Indexer.scanBlocks, JValue.get, hlt, Option.getD,
            JValue.eqStr, String.reduceBEq, Bool.false_eq_true,
            if_false] using e3
      | some ty =>
        rw [hlt] at hb
        by_cases htool : ty.eqStr "tool_use" = true
        · have hty : ty = .jstr "tool_use" := (eqStr_iff ty "tool_use").mp htool
          subst hty
          obtain ⟨k, parts, txt, st1, acc1, e1, e2, e3, e4, e5, e6, e7, e8,
            e9, e10, e11, e12⟩ := ih hrest
            { st with tool_calls := st.tool_calls + 1 }
            { acc with tool_calls := acc.tool_calls + 1 }
          simp only at e4 e5 e6 e7 e8 e9 e10 e11 e12
          refine ⟨k + 1, parts, txt, st1, acc1, ?_, e2, ?_, e4, e5,
            by omega, e7, e8, e9, by omega, e11, e12⟩
          · simpa only [Transcript.scanBlocks, JValue.get, hlt, Option.getD,
              JValue.eqStr, String.reduceBEq, if_true] using e1
          · simpa only [Indexer.scanBlocks, JValue.get, hlt, Option.getD,
              JValue.eqStr, String.reduceBEq, if_true] using e3
        · by_cases htext : ty.eqStr "text" = true
          · have hty : ty = .jstr "text" := (eqStr_iff ty "text").mp htext
            subst hty
            cases hltx : fields.lookup "text" with
            | none =>
              rw [hltx] at hb
              exact absurd hb (by simp [JValue.eqStr])
            | some tv =>
              rw [hltx] at hb
              cases tv with
              | jstr s0 =>
                have f1 : (JValue.jstr "text").eqStr "tool_use" = false := rfl
                have f2 : (JValue.jstr "text").eqStr "text" = true := rfl
                by_cases huser : role.eqStr "user" = true
                · by_cases hfus : acc.first_user_seen = true
                  · obtain ⟨k, parts, txt, st1, acc1, e1, e2, e3, e4, e5, e6,
                      e7, e8, e9, e10, e11, e12⟩ := ih hrest st
                      { acc with input_chars := acc.input_chars + s0.length }
                    simp only at e9 e10 e11 e12
                    refine ⟨k, JValue.jstr s0 :: parts, s0 ++ txt, st1, acc1,
                      ?_, ?_, ?_, e4, e5, e6, e7, e8, e9, e10, ?_, ?_⟩
                    · simp only [Transcript.scanBlocks, JValue.get, hlt,
                        hltx, Option.getD, f1, f2, Bool.false_eq_true,
                        eq_self_iff_true, if_true, if_false]
                      rw [e1]
                    · rw [show JValue.joinStrs (JValue.jstr s0 :: parts) =
                          (JValue.joinStrs parts).map (fun t => s0 ++ t) from
                          rfl, e2]
                      rfl
                    · simp only [Indexer.scanBlocks, JValue.get, hlt, hltx,
                        Option.getD, f1, f2, Bool.false_eq_true,
                        eq_self_iff_true, if_true, if_false, huser,
                        JValue.len, hfus, Bool.not_true]
                      simp only [hfus] at e3
                      exact e3
                    · simp only [huser, if_true] at e11 ⊢
                      rw [String.length_append]
                      omega
                    · simp only [huser, if_true] at e12 ⊢
                      omega
                  · have hfus2 : acc.first_user_seen = false := by
                      simpa using hfus
                    obtain ⟨k, parts, txt, st1, acc1, e1, e2, e3, e4, e5, e6,
                      e7, e8, e9, e10, e11, e12⟩ := ih hrest st
                      { acc with
                        input_chars := acc.input_chars + s0.length
                        summary := Py.takeStr 200 (Py.cleanText s0)
                        first_user_seen := true }
                    simp only at e9 e10 e11 e12
                    refine ⟨k, JValue.jstr s0 :: parts, s0 ++ txt, st1, acc1,
                      ?_, ?_, ?_, e4, e5, e6, e7, e8, e9, e10, ?_, ?_⟩
                    · simp only [Transcript.scanBlocks, JValue.get, hlt,
                        hltx, Option.getD, f1, f2, Bool.false_eq_true,
                        eq_self_iff_true, if_true, if_false]
                      rw [e1]
                    · rw [show JValue.joinStrs (JValue.jstr s0 :: parts) =
                          (JValue.joinStrs parts).map (fun t => s0 ++ t) from
                          rfl, e2]
                      rfl
                    · simp only [Indexer.scanBlocks, JValue.get, hlt, hltx,
                        Option.getD, f1, f2, Bool.false_eq_true,
                        eq_self_iff_true, if_true, if_false, huser,
                        JValue.len, hfus2, Bool.not_false]
                      exact e3
                    · simp only [huser, if_true] at e11 ⊢
                      rw [String.length_append]
                      omega
                    · simp only [huser, if_true] at e12 ⊢
                      omega
                · have huser2 : role.eqStr "user" = false := by
                    simpa using huser
                  obtain ⟨k, parts, txt, st1, acc1, e1, e2, e3, e4, e5, e6,
                    e7, e8, e9, e10, e11, e12⟩ := ih hrest st
                    { acc with output_chars := acc.output_chars + s0.length }
                  simp only at e9 e10 e11 e12
                  refine ⟨k, JValue.jstr s0 :: parts, s0 ++ txt, st1, acc1,
                    ?_, ?_, ?_, e4, e5, e6, e7, e8, e9, e10, ?_, ?_⟩
                  · simp only [Transcript.scanBlocks, JValue.get, hlt,
                      hltx, Option.getD, f1, f2, Bool.false_eq_true,
                      eq_self_iff_true, if_true, if_false]
                    rw [e1]
                  · rw [show JValue.joinStrs (JValue.jstr s0 :: parts) =
                        (JValue.joinStrs parts).map (fun t => s0 ++ t) from
                        rfl, e2]
                    rfl
                  · simp only [Indexer.scanBlocks, JValue.get, hlt, hltx,
                      Option.getD, f1, f2, Bool.false_eq_true,
                      eq_self_iff_true, if_true, if_false, huser2,
                      JValue.len]
                    exact e3
                  · simp only [huser2, Bool.false_eq_true, if_false] at e11 ⊢
                    omega
                  · simp only [huser2, Bool.false_eq_true, if_false] at e12 ⊢
                    rw [String.length_append]
                    omega
              | jnull => exact absurd hb (by simp [JValue.eqStr])
              | jbool x => exact absurd hb (by simp [JValue.eqStr])
              | jnum x => exact absurd hb (by simp [JValue.eqStr])
              | jarr x => exact absurd hb (by simp [JValue.eqStr])
              | jobj x => exact absurd hb (by simp [JValue.eqStr])
          · have htool2 : ty.eqStr "tool_use" = false := by simpa using htool
            have htext2 : ty.eqStr "text" = false := by simpa using htext
            obtain ⟨k, parts, txt, st1, acc1, e1, e2, e3, e4, e5, e6, e7, e8,
              e9, e10, e11, e12⟩ := ih hrest st acc
            refine ⟨k, parts, txt, st1, acc1, ?_, e2, ?_, e4, e5, e6, e7, e8,
              e9, e10, e11, e12⟩
            · simpa only [Transcript.scanBlocks, JValue.get, hlt, Option.getD,
                htool2, htext2, Bool.false_eq_true, if_false] using e1
            · simpa only [Indexer.scanBlocks, JValue.get, hlt, Option.getD,
                htool2, htext2, Bool.false_eq_true, if_false] using e3

/-- Field effects of TranscriptStats.add_message: one message, characters to
    the side selected by the role, tool calls untouched. -/
theorem add_message_fields (st : Transcript.TranscriptStats) (role : JValue)
    (text : String) :
    (Transcript.add_message st role text).messages = st.messages + 1 ∧
    (Transcript.add_message st role text).tool_calls = st.tool_calls ∧
    (Transcript.add_message st role text).input_chars =
      st.input_chars + (if role.eqStr "user" then text.length else 0) ∧
    (Transcript.add_message st role text).output_chars =
      st.output_chars + (if role.eqStr "user" then 0 else text.length) := by
  unfold Transcript.add_message
  by_cases hu : role.eqStr "user" = true <;>
    by_cases hs : (st.summary == "" && text != "") = true <;>
    simp [hu, hs]

/-- Over a canonical record the two jsonl record scanners correspond:
    transcript.py completes, counting one message and applying some tool and
    character deltas, and indexer.py (whose message counter was already
    bumped by its line loop) completes applying the same deltas. -/
theorem record_par (v : JValue) (hwf : recordWf v = true)
    (st : Transcript.TranscriptStats) (acc : Indexer.JsonlAcc) :
    ∃ (k din dout : Nat) (st1 : Transcript.TranscriptStats)
      (acc1 : Indexer.JsonlAcc),
      Transcript.scanRecord v st = (st1, true) ∧
      Indexer.scanRecord v acc = some acc1 ∧
      st1.messages = st.messages + 1 ∧
      st1.tool_calls = st.tool_calls + k ∧
      st1.input_chars = st.input_chars + din ∧
      st1.output_chars = st.output_chars + dout ∧
      acc1.messages = acc.messages ∧
      acc1.tool_calls = acc.tool_calls + k ∧
      acc1.input_chars = acc.input_chars + din ∧
      acc1.output_chars = acc.output_chars + dout := by
  cases v with
  | jnull => exact absurd hwf (by simp [recordWf])
  | jbool x => exact absurd hwf (by simp [recordWf])
  | jnum x => exact absurd hwf (by simp [recordWf])
  | jstr x => exact absurd hwf (by simp [recordWf])
  | jarr x => exact absurd hwf (by simp [recordWf])
  | jobj fields =>
    simp only [recordWf] at hwf
    have main : ∀ (blocks : List JValue), blocks.all blockOk = true →
        ∀ (role0 : JValue),
        (∀ st2, Transcript.scanRecord (.jobj fields) st2 =
          (match Transcript.scanBlocks blocks st2 with
           | (st3, none) => (st3, false)
           | (st3, some parts) =>
             match JValue.joinStrs parts with
             | none => (st3, false)
             | some text => (Transcript.add_message st3 role0 text, true))) →
        (∀ acc2, Indexer.scanRecord (.jobj fields) acc2 =
          Indexer.scanBlocks role0 blocks acc2) →
        ∃ (k din dout : Nat) (st1 : Transcript.TranscriptStats)
          (acc1 : Indexer.JsonlAcc),
          Transcript.scanRecord (.jobj fields) st = (st1, true) ∧
          Indexer.scanRecord (.jobj fields) acc = some acc1 ∧
          st1.messages = st.messages + 1 ∧
          st1.tool_calls = st.tool_calls + k ∧
          st1.input_chars = st.input_chars + din ∧
          st1.output_chars = st.output_chars + dout ∧
          acc1.messages = acc.messages ∧
          acc1.tool_calls = acc.tool_calls + k ∧
          acc1.input_chars = acc.input_chars + din ∧
          acc1.output_chars = acc.output_chars + dout := by
      intro blocks hall role0 hT hI
      obtain ⟨k, parts, txt, st1, acc1, e1, e2, e3, e4, e5, e6, e7, e8,
        e9, e10, e11, e12⟩ := blocks_par role0 blocks hall st acc
      obtain ⟨a1, a2, a3, a4⟩ := add_message_fields st1 role0 txt
      refine ⟨k, (if role0.eqStr "user" then txt.length else 0),
        (if role0.eqStr "user" then 0 else txt.length),
        Transcript.add_message st1 role0 txt, acc1, ?_, ?_, ?_, ?_, ?_, ?_,
        e9, ?_, e11, e12⟩
      · rw [hT st, e1]
        simp only [e2]
      · rw [hI acc, e3]
      · omega
      · omega
      · rw [a3, e7]
      · rw [a4, e8]
      · omega
    cases hm : fields.lookup "message" with
    | none =>
      refine main [] rfl ((fields.lookup "role").getD (.jstr "")) ?_ ?_
      · intro st2
        simp only [Transcript.scanRecord, JValue.get, hm, Option.getD,
          JValue.iter, List.lookup]
      · intro acc2
        simp only [Indexer.scanRecord, JValue.get, hm, Option.getD,
          JValue.iter, List.lookup]
    | some msg =>
      rw [hm] at hwf
      cases msg with
      | jobj mf =>
        have hwf2 : (match mf.lookup "content" with
            | some (JValue.jarr blocks) => blocks.all blockOk
            | some _ => false
            | none => true) = true := hwf
        cases hc : mf.lookup "content" with
        | none =>
          refine main [] rfl ((fields.lookup "role").getD (.jstr "")) ?_ ?_
          · intro st2
            simp only [Transcript.scanRecord, JValue.get, hm, hc,
              Option.getD, JValue.iter]
          · intro acc2
            simp only [Indexer.scanRecord, JValue.get, hm, hc, Option.getD,
              JValue.iter]
        | some cv =>
          rw [hc] at hwf2
          cases cv with
          | jarr blocks =>
            refine main blocks (by simpa using hwf2)
              ((fields.lookup "role").getD (.jstr "")) ?_ ?_
            · intro st2
              simp only [Transcript.scanRecord, JValue.get, hm, hc,
                Option.getD, JValue.iter]
            · intro acc2
              simp only [Indexer.scanRecord, JValue.get, hm, hc, Option.getD,
                JValue.iter]
          | jnull => exact absurd hwf2 (by simp)
          | jbool x => exact absurd hwf2 (by simp)
          | jnum x => exact absurd hwf2 (by simp)
          | jstr x => exact absurd hwf2 (by simp)
          | jobj x => exact absurd hwf2 (by simp)
      | jnull => exact absurd hwf (by simp)
      | jbool x => exact absurd hwf (by simp)
      | jnum x => exact absurd hwf (by simp)
      | jstr x => exact absurd hwf (by simp)
      | jarr x => exact absurd hwf (by simp)

/-- Counting arithmetic for the non-empty line count: non-blank head. -/
theorem nonEmptyLines_cons_pos (l : String) (ls : List String)
    (h : (Py.strip l != "") = true) :
    nonEmptyLines (l :: ls) = nonEmptyLines ls + 1 := by
  simp [nonEmptyLines, List.filter, h]

/-- Counting arithmetic for the non-empty line count: blank head. -/
theorem nonEmptyLines_cons_neg (l : String) (ls : List String)
    (h : (Py.strip l != "") = false) :
    nonEmptyLines (l :: ls) = nonEmptyLines ls := by
  simp [nonEmptyLines, List.filter, h]

/-- Over a well-formed jsonl input the two line loops correspond: both
    complete, their numeric fields stay equal, and transcript.py counts one
    message per non-empty line. -/
theorem jsonl_par (jloads : String → Option JValue) :
    ∀ (ls : List String), inputWf jloads ls = true →
    ∀ (st : Transcript.TranscriptStats) (acc : Indexer.JsonlAcc),
    statsRelEq st acc →
    ∃ (st1 : Transcript.TranscriptStats) (acc1 : Indexer.JsonlAcc),
      Transcript.parse_jsonl jloads ls st = (st1, true) ∧
      Indexer.parse_jsonl jloads ls acc = some acc1 ∧
      statsRelEq st1 acc1 ∧
      st1.messages = st.messages + nonEmptyLines ls := by
  intro ls
  induction ls with
  | nil =>
    intro _ st acc hrel
    exact ⟨st, acc, rfl, rfl, hrel, by simp [nonEmptyLines]⟩
  | cons l ls ih =>
    intro hwf st acc hrel
    rw [inputWf, List.all_cons, Bool.and_eq_true] at hwf
    have hl : lineWf jloads l = true := hwf.1
    have hls : inputWf jloads ls = true := hwf.2
    obtain ⟨q1, q2, q3, q4⟩ := hrel
    by_cases hstrip : (Py.strip l == "") = true
    · obtain ⟨st1, acc1, e1, e2, e3, e4⟩ := ih hls st acc ⟨q1, q2, q3, q4⟩
      refine ⟨st1, acc1, ?_, ?_, e3, ?_⟩
      · simpa only [Transcript.parse_jsonl, hstrip, if_true] using e1
      · simpa only [Indexer.parse_jsonl, hstrip, if_true] using e2
      · rw [e4, nonEmptyLines_cons_neg l ls (by simpa using eq_of_beq hstrip)]
    · have hstrip2 : (Py.strip l == "") = false := by simpa using hstrip
      cases hj : jloads (Py.strip l) with
      | none =>
        obtain ⟨st1, acc1, e1, e2, e3, e4⟩ := ih hls
          { st with messages := st.messages + 1 }
          { acc with messages := acc.messages + 1 }
          ⟨by simp only; omega, q2, q3, q4⟩
        refine ⟨st1, acc1, ?_, ?_, e3, ?_⟩
        · simpa only [Transcript.parse_jsonl, hstrip2, Bool.false_eq_true,
            if_false, hj] using e1
        · simpa only [Indexer.parse_jsonl, hstrip2, Bool.false_eq_true,
            if_false, hj] using e2
        · have hb : (Py.strip l != "") = true := by
            simpa [bne] using hstrip2
          rw [e4, nonEmptyLines_cons_pos l ls hb]
          simp only at e4 ⊢
          omega
      | some v =>
        have hwfv : recordWf v = true := by
          simp only [lineWf, hstrip2, hj, Bool.false_or] at hl
          exact hl
        obtain ⟨k, din, dout, st1r, acc1r, r1, r2, r3, r4, r5, r6, r7, r8,
          r9, r10⟩ := record_par v hwfv st { acc with messages := acc.messages + 1 }
        simp only at r3 r4 r5 r6 r7 r8 r9 r10
        obtain ⟨st1, acc1, e1, e2, e3, e4⟩ := ih hls st1r acc1r
          ⟨by omega, by omega, by omega, by omega⟩
        refine ⟨st1, acc1, ?_, ?_, e3, ?_⟩
        · simp only [Transcript.parse_jsonl, hstrip2, Bool.false_eq_true,
            if_false, hj, r1]
          exact e1
        · simp only [Indexer.parse_jsonl, hstrip2, Bool.false_eq_true,
            if_false, hj, r2]
          exact e2
        · have hb : (Py.strip l != "") = true := by
            simpa [bne] using hstrip2
          rw [e4, nonEmptyLines_cons_pos l ls hb]
          omega

/-- C3 amended: the Format-A message count equals the number of non-empty
    lines regardless of whether individual lines parse as valid JSON,
    PROVIDED every line that does parse yields a record of the canonical
    shape (a line parsing to a non-object value, or to an object with a
    non-dict message / non-list content / non-string text, raises and aborts
    the scan, losing the count).  Holds for both implementations. -/
theorem c3_jsonl_message_count (jloads : String → Option JValue)
    (content : String)
    (h : inputWf jloads (Py.lines content) = true) :
    (Transcript.parse jloads "jsonl" (some content)).messages =
      nonEmptyLines (Py.lines content) ∧
    (Indexer.parse_transcript jloads "jsonl" (some content)).messages =
      nonEmptyLines (Py.lines content) := by
  obtain ⟨st1, acc1, e1, e2, e3, e4⟩ := jsonl_par jloads (Py.lines content) h
    {} {} ⟨rfl, rfl, rfl, rfl⟩
  simp only at e4
  constructor
  · simp only [Transcript.parse, Transcript.parseStats, String.reduceBEq,
      if_true, e1, Transcript.to_dict]
    omega
  · simp only [Indexer.parse_transcript, String.reduceBEq, if_true, e2,
      Indexer.jsonlResult]
    obtain ⟨m, _, _, _⟩ := e3
    omega

/-- Witness for C3 at a concrete well-formed input: one canonical record,
    one blank line, one unparseable line. -/
theorem c3_jsonl_message_count_witness :
    (Transcript.parse demoLoads "jsonl" (some "U\n\nxx")).messages =
      nonEmptyLines (Py.lines "U\n\nxx") ∧
    (Indexer.parse_transcript demoLoads "jsonl" (some "U\n\nxx")).messages =
      nonEmptyLines (Py.lines "U\n\nxx") :=
  c3_jsonl_message_count demoLoads "U\n\nxx" (by decide)

/-- The two txt line loops evolve their numeric fields identically. -/
theorem txt_par :
    ∀ (ls : List String) (role : Option String)
      (st : Transcript.TranscriptStats) (acc : Indexer.TxtAcc),
    txtRelEq st acc →
    txtRelEq (Transcript.txtLoop ls role st) (Indexer.txtLoop ls role acc) := by
  intro ls
  induction ls with
  | nil =>
    intro role st acc h
    exact h
  | cons l ls ih =>
    intro role st acc h
    obtain ⟨q1, q2, q3, q4⟩ := h
    by_cases h1 : (Py.strip l == "user:") = true
    · have hsl : Py.strip l = "user:" := eq_of_beq h1
      simp only [Transcript.txtLoop, Indexer.txtLoop, hsl,
        show (("user:" : String) == "user:") = true from rfl,
        show (("user:" : String) == "assistant:") = false from rfl,
        Bool.true_or, if_true,
        show Py.rstripColon "user:" = "user" from rfl]
      exact ih (some "user") _ _ ⟨by simp only; omega, q2, q3, q4⟩
    · by_cases h2 : (Py.strip l == "assistant:") = true
      · have hsl : Py.strip l = "assistant:" := eq_of_beq h2
        simp only [Transcript.txtLoop, Indexer.txtLoop, hsl,
          show (("assistant:" : String) == "user:") = false from rfl,
          show (("assistant:" : String) == "assistant:") = true from rfl,
          Bool.false_or, Bool.false_eq_true, if_false, if_true,
          show Py.rstripColon "assistant:" = "assistant" from rfl]
        exact ih (some "assistant") _ _ ⟨by simp only; omega, q2, q3, q4⟩
      · have h1f : (Py.strip l == "user:") = false := by simpa using h1
        have h2f : (Py.strip l == "assistant:") = false := by simpa using h2
        simp only [Transcript.txtLoop, Indexer.txtLoop, h1f, h2f,
          Bool.or_self, Bool.false_eq_true, if_false]
        refine ih role _ _ ⟨?_, ?_, ?_, ?_⟩ <;>
          · split_ifs <;> (try simp) <;> omega

/-- C10 counterexample: on a user record with two text parts, transcript.py
    joins the parts before capturing the summary ("ab"), while indexer.py
    captures only the first text block ("a"): the two result dicts differ. -/
theorem c10_impls_cex :
    (Transcript.parse demoLoads "jsonl" (some "M")).summary = "ab" ∧
    (Indexer.parse_transcript demoLoads "jsonl" (some "M")).summary = "a" :=
  ⟨by decide, by decide⟩

/-- C10 amended: the two implementations agree on the four numeric fields
    (messages, tool_calls, input_tokens, output_tokens) — for Format A
    provided the records are canonical (on exception transcript.py keeps
    partial stats while indexer.py discards them), for Format B and for
    unsupported extensions and unreadable files unconditionally.  Their
    summary fields may differ. -/
theorem c10_scanners_numeric_equiv :
    (∀ (jloads : String → Option JValue) (content : String),
      inputWf jloads (Py.lines content) = true →
      numericEq (Transcript.parse jloads "jsonl" (some content))
        (Indexer.parse_transcript jloads "jsonl" (some content)) = true) ∧
    (∀ (jloads : String → Option JValue) (content : String),
      numericEq (Transcript.parse jloads "txt" (some content))
        (Indexer.parse_transcript jloads "txt" (some content)) = true) ∧
    (∀ (jloads : String → Option JValue) (ext : String)
      (content : Option String), ext ≠ "jsonl" → ext ≠ "txt" →
      Transcript.parse jloads ext content =
        Indexer.parse_transcript jloads ext content) ∧
    (∀ (jloads : String → Option JValue) (ext : String),
      Transcript.parse jloads ext none =
        Indexer.parse_transcript jloads ext none) := by
  refine ⟨?_, ?_, ?_, ?_⟩
  · intro jloads content h
    obtain ⟨st1, acc1, e1, e2, e3, _⟩ := jsonl_par jloads (Py.lines content) h
      {} {} ⟨rfl, rfl, rfl, rfl⟩
    obtain ⟨m1, m2, m3, m4⟩ := e3
    simp only [Transcript.parse, Transcript.parseStats, String.reduceBEq,
      if_true, e1, Transcript.to_dict, Indexer.parse_transcript,
      Indexer.jsonlResult, e2, numericEq]
    simp [m1, m2, m3, m4]
  · intro jloads content
    have hrel : txtRelEq
        (match Py.userQuerySummaryRaw content with
         | some g => { (({} : Transcript.TranscriptStats)) with
             summary := Py.takeStr 200 (Py.cleanText g) }
         | none => ({} : Transcript.TranscriptStats))
        (match Py.userQuerySummaryRaw content with
         | some g => { (({} : Indexer.TxtAcc)) with
             summary := Py.takeStr 200 ⟨Py.collapseWs g.data⟩ }
         | none => ({} : Indexer.TxtAcc)) := by
      cases Py.userQuerySummaryRaw content <;> exact ⟨rfl, rfl, rfl, rfl⟩
    have h2 := txt_par (Py.lines content) none _ _ hrel
    obtain ⟨m1, m2, m3, m4⟩ := h2
    simp only [Transcript.parse, Transcript.parseStats, String.reduceBEq,
      if_true, Bool.false_eq_true, if_false, Transcript.to_dict,
      Indexer.parse_transcript, Indexer.txtResult, Indexer.parse_txt,
      Transcript.parse_txt, numericEq]
    simp only [Transcript.parse_txt] at m1 m2 m3 m4
    simp [m1, m2, m3, m4]
  · intro jloads ext content h1 h2
    have e1 : (ext == "jsonl") = false := by simpa using h1
    have e2 : (ext == "txt") = false := by simpa using h2
    cases content with
    | none =>
      simp [Transcript.parse, Transcript.parseStats, Transcript.to_dict,
        Indexer.parse_transcript, ScanResult.zero]
    | some text =>
      simp [Transcript.parse, Transcript.parseStats, Transcript.to_dict,
        Indexer.parse_transcript, ScanResult.zero, e1, e2]
  · intro jloads ext
    simp [Transcript.parse, Transcript.parseStats, Transcript.to_dict,
      Indexer.parse_transcript, ScanResult.zero]

/-- Witness for C10 at a concrete well-formed Format-A input and the
    unsupported extension conjunct. -/
theorem c10_scanners_numeric_equiv_witness :
    numericEq (Transcript.parse demoLoads "jsonl" (some "U\nA"))
      (Indexer.parse_transcript demoLoads "jsonl" (some "U\nA")) = true ∧
    Transcript.parse demoLoads "csv" (some "a,b") =
      Indexer.parse_transcript demoLoads "csv" (some "a,b") :=
  ⟨c10_scanners_numeric_equiv.1 demoLoads "U\nA" (by decide),
   c10_scanners_numeric_equiv.2.2.1 demoLoads "csv" (some "a,b")
     (by decide) (by decide)⟩

/-- Boolean contains is membership. -/
theorem contains_false (l : List Char) (a : Char) :
    l.contains a = false ↔ a ∉ l := by
  rw [← List.elem_iff]
  cases h : l.contains a <;> simp_all

/-- A list without gt holds no complete tag. -/
theorem hasTag_false_of_no_gt :
    ∀ (cs : List Char), cs.contains '>' = false → hasTag cs = false := by
  intro cs
  induction cs with
  | nil => intro _; rfl
  | cons c cs ih =>
    intro h
    have hm : '>' ∉ c :: cs := (contains_false _ _).mp h
    have h2 : cs.contains '>' = false := (contains_false _ _).mpr
      (fun hx => hm (List.mem_cons_of_mem c hx))
    by_cases hc : (c == '<') = true
    · cases cs with
      | nil => simp [hasTag, hc]
      | cons d ds =>
        simp only [hasTag, hc, if_true, h2, Bool.and_false, Bool.false_or]
        exact ih h2
    · have hcf : (c == '<') = false := by simpa using hc
      simp only [hasTag, hcf, Bool.false_eq_true, if_false]
      exact ih h2

/-- A list without gt satisfies the lt invariant. -/
theorem okLt_of_no_gt :
    ∀ (cs : List Char), cs.contains '>' = false → okLt cs = true := by
  intro cs
  induction cs with
  | nil => intro _; rfl
  | cons c cs ih =>
    intro h
    have hm : '>' ∉ c :: cs := (contains_false _ _).mp h
    have h2 : cs.contains '>' = false := (contains_false _ _).mpr
      (fun hx => hm (List.mem_cons_of_mem c hx))
    by_cases hc : (c == '<') = true
    · by_cases hh : (cs.head? == some '>') = true
      · exfalso
        cases cs with
        | nil => simp at hh
        | cons d ds =>
          have hd : d = '>' := by simpa using eq_of_beq hh
          exact ((contains_false _ _).mp h2) (hd ▸ List.mem_cons_self d ds)
      · have hhf : (cs.head? == some '>') = false := by simpa using hh
        simp only [okLt, hc, if_true, hhf, Bool.false_eq_true, if_false]
        rw [h2]
        rfl
    · have hcf : (c == '<') = false := by simpa using hc
      simp only [okLt, hcf, Bool.false_eq_true, if_false]
      exact ih h2

/-- The lt invariant rules out any complete tag. -/
theorem hasTag_false_of_okLt :
    ∀ (cs : List Char), okLt cs = true → hasTag cs = false := by
  intro cs
  induction cs with
  | nil => intro _; rfl
  | cons c cs ih =>
    intro h
    by_cases hc : (c == '<') = true
    · by_cases hh : (cs.head? == some '>') = true
      · have h2 : okLt cs = true := by simpa [okLt, hc, hh] using h
        cases cs with
        | nil => simp at hh
        | cons d ds =>
          have hd : d = '>' := by simpa using eq_of_beq hh
          subst hd
          simp only [hasTag, hc, if_true, bne_self_eq_false, Bool.false_and,
            Bool.false_or]
          exact ih h2
      · have hhf : (cs.head? == some '>') = false := by simpa using hh
        have hcont : cs.contains '>' = false := by
          have h3 : (!cs.contains '>') = true := by
            simpa [okLt, hc, hhf] using h
          simpa using h3
        cases cs with
        | nil => simp [hasTag, hc]
        | cons d ds =>
          simp only [hasTag, hc, if_true, hcont, Bool.and_false,
            Bool.false_or]
          exact hasTag_false_of_no_gt _ hcont
    · have hcf : (c == '<') = false := by simpa using hc
      have h2 : okLt cs = true := by simpa [okLt, hcf] using h
      simp only [hasTag, hcf, Bool.false_eq_true, if_false]
      exact ih h2

/-- The tag stripper's output satisfies the lt invariant: every emitted lt
    is either immediately closed or never followed by a gt. -/
theorem stripTagsAux_okLt :
    ∀ (cs buf : List Char), buf.contains '>' = false →
    (buf = [] ∨ buf.head? = some '<') →
    okLt (Py.stripTagsAux buf cs) = true := by
  intro cs
  induction cs with
  | nil =>
    intro buf h1 _
    exact okLt_of_no_gt buf h1
  | cons c cs ih =>
    intro buf h1 h2
    by_cases hbe : buf.isEmpty = true
    · have hb : buf = [] := List.isEmpty_iff.mp hbe
      subst hb
      by_cases hc : (c == '<') = true
      · have hceq : c = '<' := eq_of_beq hc
        subst hceq
        simp only [Py.stripTagsAux, List.isEmpty_nil, if_true, hc]
        exact ih ['<'] (by decide) (Or.inr rfl)
      · have hcf : (c == '<') = false := by simpa using hc
        simp only [Py.stripTagsAux, List.isEmpty_nil, if_true, hcf,
          Bool.false_eq_true, if_false]
        by_cases hcl : (c == '<') = true
        · exact absurd hcl (by simp [hcf])
        · simp only [okLt, hcf, Bool.false_eq_true, if_false]
          exact ih [] rfl (Or.inl rfl)
    · have hbne : buf ≠ [] := fun e => hbe (by simp [e])
      have hbef : buf.isEmpty = false := by
        cases hx : buf.isEmpty
        · rfl
        · exact absurd hx hbe
      have hhd : buf.head? = some '<' := by
        rcases h2 with h2 | h2
        · exact absurd h2 hbne
        · exact h2
      by_cases hgt : (c == '>') = true
      · by_cases hlen : 2 ≤ buf.length
        · simp only [Py.stripTagsAux, hbef, Bool.false_eq_true, if_false,
            hgt, if_true, hlen]
          exact ih [] rfl (Or.inl rfl)
        · have hbuf : buf = ['<'] := by
            cases buf with
            | nil => exact absurd rfl hbne
            | cons b bs =>
              have hb : b = '<' := by simpa using hhd
              cases bs with
              | nil => rw [hb]
              | cons b2 bs2 =>
                exact absurd (by simp only [List.length_cons]; omega) hlen
          subst hbuf
          have hl2 : ¬(2 ≤ (['<'] : List Char).length) := by decide
          simp only [Py.stripTagsAux, Bool.false_eq_true, if_false, hgt,
            if_true, hl2, List.cons_append, List.nil_append]
          have hce : c = '>' := eq_of_beq hgt
          subst hce
          simp only [okLt, List.head?_cons,
            show (('<' : Char) == '<') = true from rfl,
            show ((some '>' : Option Char) == some '>') = true from rfl,
            show (('>' : Char) == '<') = false from rfl,
            if_true, Bool.false_eq_true, if_false]
          exact ih [] rfl (Or.inl rfl)
      · have hgtf : (c == '>') = false := by simpa using hgt
        simp only [Py.stripTagsAux, hbef, Bool.false_eq_true, if_false, hgtf]
        refine ih (buf ++ [c]) ?_ (Or.inr ?_)
        · refine (contains_false _ _).mpr ?_
          intro hx
          rcases List.mem_append.mp hx with hx | hx
          · exact (contains_false _ _).mp h1 hx
          · have hce : c = '>' := by
              have := by simpa using hx
              exact this.symm
            rw [hce] at hgtf
            simp at hgtf
        · rw [List.head?_append_of_ne_nil]
          · exact hhd
          · exact hbne

/-- The whitespace collapser only emits spaces and input characters. -/
theorem collapseAux_mem :
    ∀ (cs : List Char) (st p : Bool) (x : Char),
    x ∈ Py.collapseAux st p cs → x = ' ' ∨ x ∈ cs := by
  intro cs
  induction cs with
  | nil =>
    intro st p x hx
    simp [Py.collapseAux] at hx
  | cons c cs ih =>
    intro st p x hx
    by_cases hw : Py.isWs c = true
    · simp only [Py.collapseAux, hw, if_true] at hx
      rcases ih st true x hx with h | h
      · exact Or.inl h
      · exact Or.inr (List.mem_cons_of_mem c h)
    · have hwf : Py.isWs c = false := by simpa using hw
      by_cases hsp : (st && p) = true
      · simp only [Py.collapseAux, hwf, Bool.false_eq_true, if_false, hsp,
          if_true, List.mem_cons] at hx
        rcases hx with h | h | h
        · exact Or.inl h
        · exact Or.inr (h ▸ List.mem_cons_self c cs)
        · rcases ih true false x h with h2 | h2
          · exact Or.inl h2
          · exact Or.inr (List.mem_cons_of_mem c h2)
      · have hspf : (st && p) = false := by simpa using hsp
        simp only [Py.collapseAux, hwf, Bool.false_eq_true, if_false, hspf,
          List.mem_cons] at hx
        rcases hx with h | h
        · exact Or.inr (h ▸ List.mem_cons_self c cs)
        · rcases ih true false x h with h2 | h2
          · exact Or.inl h2
          · exact Or.inr (List.mem_cons_of_mem c h2)

/-- The whitespace collapser preserves the lt invariant. -/
theorem collapseAux_okLt :
    ∀ (cs : List Char) (st p : Bool), okLt cs = true →
    okLt (Py.collapseAux st p cs) = true := by
  intro cs
  induction cs with
  | nil =>
    intro st p _
    rfl
  | cons c cs ih =>
    intro st p h
    by_cases hw : Py.isWs c = true
    · have hcne : (c == '<') = false := by
        by_cases hq : (c == '<') = true
        · rw [eq_of_beq hq] at hw
          exact absurd hw (by decide)
        · simpa using hq
      have h2 : okLt cs = true := by simpa [okLt, hcne] using h
      simp only [Py.collapseAux, hw, if_true]
      exact ih st true h2
    · have hwf : Py.isWs c = false := by simpa using hw
      have body : okLt (c :: Py.collapseAux true false cs) = true := by
        by_cases hc : (c == '<') = true
        · cases cs with
          | nil =>
            simp [Py.collapseAux, okLt, hc]
          | cons d ds =>
            by_cases hd : (d == '>') = true
            · have hde : d = '>' := eq_of_beq hd
              subst hde
              have h2 : okLt ('>' :: ds) = true := by
                simpa [okLt, hc, List.head?_cons] using h
              have hrec : okLt (Py.collapseAux true false ('>' :: ds)) =
                  true := ih true false h2
              have hunf : Py.collapseAux true false ('>' :: ds) =
                  '>' :: Py.collapseAux true false ds := by
                simp [Py.collapseAux, show Py.isWs '>' = false from rfl]
              rw [hunf] at hrec ⊢
              simpa [okLt, hc, List.head?_cons] using hrec
            · have hdf : (d == '>') = false := by simpa using hd
              have hcont : (d :: ds).contains '>' = false := by
                have h3 : (!(d :: ds).contains '>') = true := by
                  simpa [okLt, hc, List.head?_cons, hdf] using h
                simpa using h3
              have hcont2 :
                  (Py.collapseAux true false (d :: ds)).contains '>'
                    = false := by
                refine (contains_false _ _).mpr ?_
                intro hx
                rcases collapseAux_mem (d :: ds) true false '>' hx with
                  h4 | h4
                · exact absurd h4 (by decide)
                · exact (contains_false _ _).mp hcont h4
              cases hout : Py.collapseAux true false (d :: ds) with
              | nil => simp [okLt, hc]
              | cons y ys =>
                have hyne : (y == '>') = false := by
                  by_cases hq : (y == '>') = true
                  · exfalso
                    have : '>' ∈ Py.collapseAux true false (d :: ds) := by
                      rw [hout, ← eq_of_beq hq]
                      exact List.mem_cons_self y ys
                    exact (contains_false _ _).mp
                      (hout ▸ hcont2) (hout ▸ this)
                  · simpa using hq
                rw [← hout]
                simp only [okLt, hc, if_true, hout, List.head?_cons]
                have hyne2 : (some y == some '>') = false := by
                  simpa using hyne
                rw [hyne2]
                simp only [Bool.false_eq_true, if_false]
                have hcc : (y :: ys).contains '>' = false := hout ▸ hcont2
                rw [hcc]
                rfl
        · have hcf : (c == '<') = false := by simpa using hc
          have h2 : okLt cs = true := by simpa [okLt, hcf] using h
          simp only [okLt, hcf, Bool.false_eq_true, if_false]
          exact ih true false h2
      by_cases hsp : (st && p) = true
      · simp only [Py.collapseAux, hwf, Bool.false_eq_true, if_false, hsp,
          if_true]
        simpa [okLt, show ((' ' : Char) == '<') = false from rfl] using body
      · have hspf : (st && p) = false := by simpa using hsp
        simp only [Py.collapseAux, hwf, Bool.false_eq_true, if_false, hspf]
        exact body

/-- Truncation preserves the lt invariant. -/
theorem okLt_take :
    ∀ (cs : List Char) (n : Nat), okLt cs = true →
    okLt (cs.take n) = true := by
  intro cs
  induction cs with
  | nil =>
    intro n _
    simp [okLt]
  | cons c cs ih =>
    intro n h
    cases n with
    | zero => simp [okLt]
    | succ m =>
      rw [List.take_succ_cons]
      by_cases hc : (c == '<') = true
      · by_cases hh : (cs.head? == some '>') = true
        · have h2 : okLt cs = true := by simpa [okLt, hc, hh] using h
          cases cs with
          | nil => simp at hh
          | cons d ds =>
            have hde : d = '>' := by simpa using eq_of_beq hh
            subst hde
            cases m with
            | zero => simp [okLt, hc]
            | succ m2 =>
              rw [List.take_succ_cons]
              have htk : okLt (('>' :: ds).take (m2 + 1)) = true :=
                ih (m2 + 1) h2
              rw [List.take_succ_cons] at htk
              simpa [okLt, hc, List.head?_cons] using htk
        · have hhf : (cs.head? == some '>') = false := by simpa using hh
          have hcont : cs.contains '>' = false := by
            have h3 : (!cs.contains '>') = true := by
              simpa [okLt, hc, hhf] using h
            simpa using h3
          have hcont2 : (cs.take m).contains '>' = false := by
            refine (contains_false _ _).mpr ?_
            intro hx
            exact (contains_false _ _).mp hcont (List.mem_of_mem_take hx)
          cases htk : cs.take m with
          | nil => simp [okLt, hc]
          | cons y ys =>
            have hyne : (some y == some '>') = false := by
              by_cases hq : (y == '>') = true
              · exfalso
                have : '>' ∈ cs.take m := by
                  rw [htk, ← eq_of_beq hq]
                  exact List.mem_cons_self y ys
                exact (contains_false _ _).mp hcont2 this
              · simpa using hq
            rw [← htk]
            simp only [okLt, hc, if_true, htk, List.head?_cons, hyne,
              Bool.false_eq_true, if_false]
            have hcc : (y :: ys).contains '>' = false := htk ▸ hcont2
            rw [hcc]
            rfl
      · have hcf : (c == '<') = false := by simpa using hc
        have h2 : okLt cs = true := by simpa [okLt, hcf] using h
        simp only [okLt, hcf, Bool.false_eq_true, if_false]
        exact ih m h2

/-- The cleaned summary text keeps the lt invariant after truncation. -/
theorem cleanText_take_okLt (n : Nat) (s : String) :
    okLt (Py.takeStr n (Py.cleanText s)).data = true := by
  refine okLt_take _ n ?_
  refine collapseAux_okLt _ false false ?_
  exact stripTagsAux_okLt s.data [] rfl (Or.inl rfl)

/-- Truncation bounds the summary length. -/
theorem takeStr_len_le (n : Nat) (s : String) :
    (Py.takeStr n s).length ≤ n := by
  show (s.data.take n).length ≤ n
  simp [List.length_take]

/-- The transcript.py block loop never touches the summary. -/
theorem scanBlocksT_summary :
    ∀ (blocks : List JValue) (st : Transcript.TranscriptStats),
    (Transcript.scanBlocks blocks st).1.summary = st.summary := by
  intro blocks
  induction blocks with
  | nil => intro st; rfl
  | cons b rest ih =>
    intro st
    simp only [Transcript.scanBlocks]
    split
    · rfl
    · split_ifs with h1 h2
      · exact ih _
      · split
        · rfl
        · split
          · next st1 parts heq =>
              have h3 := ih st
              rw [heq] at h3
              exact h3
          · next st1 heq =>
              have h3 := ih st
              rw [heq] at h3
              exact h3
      · exact ih _

/-- add_message keeps the summary or replaces it by cleaned truncated
    text. -/
theorem add_message_summary (st : Transcript.TranscriptStats) (role : JValue)
    (text : String) :
    (Transcript.add_message st role text).summary = st.summary ∨
    (Transcript.add_message st role text).summary =
      Py.takeStr 200 (Py.cleanText text) := by
  unfold Transcript.add_message
  by_cases hu : role.eqStr "user" = true <;>
    by_cases hs : (st.summary == "" && text != "") = true <;>
    simp [hu, hs]

/-- The transcript.py record scanner keeps the summary or replaces it by
    cleaned truncated text. -/
theorem scanRecordT_summary (v : JValue) (st : Transcript.TranscriptStats) :
    (Transcript.scanRecord v st).1.summary = st.summary ∨
    ∃ t, (Transcript.scanRecord v st).1.summary =
      Py.takeStr 200 (Py.cleanText t) := by
  unfold Transcript.scanRecord
  split
  · left; rfl
  · next role0 hr =>
    split
    · left; rfl
    · next msg hm =>
      split
      · left; rfl
      · next content hcn =>
        split
        · left; rfl
        · next blocks hit =>
          split
          · next st1 hsb =>
            have h3 := scanBlocksT_summary blocks st
            rw [hsb] at h3
            left
            exact h3
          · next st1 parts hsb =>
            split
            · have h3 := scanBlocksT_summary blocks st
              rw [hsb] at h3
              left
              exact h3
            · next text hj =>
              have h3 := scanBlocksT_summary blocks st
              rw [hsb] at h3
              rcases add_message_summary st1 role0 text with h4 | h4
              · left
                exact h4.trans h3
              · right
                exact ⟨text, h4⟩

/-- Through the transcript.py jsonl line loop the summary is the original or
    cleaned truncated text. -/
theorem parse_jsonlT_summary (jloads : String → Option JValue) :
    ∀ (ls : List String) (st : Transcript.TranscriptStats),
    (Transcript.parse_jsonl jloads ls st).1.summary = st.summary ∨
    ∃ t, (Transcript.parse_jsonl jloads ls st).1.summary =
      Py.takeStr 200 (Py.cleanText t) := by
  intro ls
  induction ls with
  | nil => intro st; left; rfl
  | cons l rest ih =>
    intro st
    simp only [Transcript.parse_jsonl]
    split_ifs with h1
    · exact ih st
    · split
      · exact ih _
      · next v hv =>
        split
        · next st1 hok =>
          rcases scanRecordT_summary v st with h3 | h3 <;> rw [hok] at h3
          · rcases ih st1 with h4 | h4
            · left
              exact h4.trans h3
            · right
              exact h4
          · rcases ih st1 with h4 | h4
            · right
              obtain ⟨t, ht⟩ := h3
              exact ⟨t, h4.trans ht⟩
            · right
              exact h4
        · next st1 hok =>
          rcases scanRecordT_summary v st with h3 | h3 <;> rw [hok] at h3
          · left
            exact h3
          · right
            exact h3

/-- The indexer.py block loop keeps the summary or replaces it by cleaned
    truncated text. -/
theorem scanBlocksI_summary :
    ∀ (role : JValue) (blocks : List JValue) (acc acc1 : Indexer.JsonlAcc),
    Indexer.scanBlocks role blocks acc = some acc1 →
    acc1.summary = acc.summary ∨
    ∃ t, acc1.summary = Py.takeStr 200 (Py.cleanText t) := by
  intro role blocks
  induction blocks with
  | nil =>
    intro acc acc1 h
    left
    injection h with h2
    rw [← h2]
  | cons c rest ih =>
    intro acc acc1 h
    simp only [Indexer.scanBlocks] at h
    cases hg : c.get "type" (JValue.jstr "") with
    | none =>
      rw [hg] at h
      exact absurd h (by simp)
    | some ty =>
      rw [hg] at h
      simp only [] at h
      by_cases h1 : ty.eqStr "tool_use" = true
      · rw [if_pos h1] at h
        rcases ih _ _ h with h3 | h3
        · left
          exact h3
        · right
          exact h3
      · rw [if_neg h1] at h
        by_cases h2 : ty.eqStr "text" = true
        · rw [if_pos h2] at h
          cases hgt : c.get "text" (JValue.jstr "") with
          | none =>
            rw [hgt] at h
            exact absurd h (by simp)
          | some t =>
            rw [hgt] at h
            simp only [] at h
            by_cases hu : role.eqStr "user" = true
            · rw [if_pos hu] at h
              cases hlen : t.len with
              | none =>
                rw [hlen] at h
                exact absurd h (by simp)
              | some n =>
                rw [hlen] at h
                simp only [] at h
                by_cases hf : acc.first_user_seen = true
                · simp only [hf, Bool.not_true, Bool.false_eq_true,
                    if_false] at h
                  rcases ih _ _ h with h3 | h3
                  · left
                    exact h3
                  · right
                    exact h3
                · have hff : acc.first_user_seen = false := by simpa using hf
                  simp only [hff, Bool.not_false, if_true] at h
                  cases t with
                  | jstr s0 =>
                    rcases ih _ _ h with h3 | h3
                    · right
                      exact ⟨s0, h3⟩
                    · right
                      exact h3
                  | jnull => exact absurd h (by simp)
                  | jbool x => exact absurd h (by simp)
                  | jnum x => exact absurd h (by simp)
                  | jarr x => exact absurd h (by simp)
                  | jobj x => exact absurd h (by simp)
            · rw [if_neg hu] at h
              cases hlen : t.len with
              | none =>
                rw [hlen] at h
                exact absurd h (by simp)
              | some n =>
                rw [hlen] at h
                simp only [] at h
                rcases ih _ _ h with h3 | h3
                · left
                  exact h3
                · right
                  exact h3
        · rw [if_neg h2] at h
          rcases ih _ _ h with h3 | h3
          · left
            exact h3
          · right
            exact h3

/-- The indexer.py record scanner keeps the summary or replaces it by
    cleaned truncated text. -/
theorem scanRecordI_summary (v : JValue) (acc acc1 : Indexer.JsonlAcc)
    (h : Indexer.scanRecord v acc = some acc1) :
    acc1.summary = acc.summary ∨
    ∃ t, acc1.summary = Py.takeStr 200 (Py.cleanText t) := by
  simp only [Indexer.scanRecord] at h
  split at h
  · exact absurd h (by simp)
  · split at h
    · exact absurd h (by simp)
    · split at h
      · exact absurd h (by simp)
      · split at h
        · exact absurd h (by simp)
        · exact scanBlocksI_summary _ _ _ _ h

/-- Through the indexer.py jsonl line loop the summary is the original or
    cleaned truncated text. -/
theorem parse_jsonlI_summary (jloads : String → Option JValue) :
    ∀ (ls : List String) (acc acc1 : Indexer.JsonlAcc),
    Indexer.parse_jsonl jloads ls acc = some acc1 →
    acc1.summary = acc.summary ∨
    ∃ t, acc1.summary = Py.takeStr 200 (Py.cleanText t) := by
  intro ls
  induction ls with
  | nil =>
    intro acc acc1 h
    left
    injection h with h2
    rw [← h2]
  | cons l rest ih =>
    intro acc acc1 h
    simp only [Indexer.parse_jsonl] at h
    split_ifs at h with h1
    · exact ih _ _ h
    · split at h
      · rcases ih _ _ h with h3 | h3
        · left
          exact h3
        · right
          exact h3
      · next v hv =>
        split at h
        · exact absurd h (by simp)
        · next accr hr =>
          rcases scanRecordI_summary v _ accr hr with h3 | h3
          · rcases ih _ _ h with h4 | h4
            · left
              exact h4.trans h3
            · right
              exact h4
          · rcases ih _ _ h with h4 | h4
            · right
              obtain ⟨t, ht⟩ := h3
              exact ⟨t, h4.trans ht⟩
            · right
              exact h4

/-- The clean-and-truncate summary holds no complete tag. -/
theorem hasTag_cleanText_take (n : Nat) (s : String) :
    hasTag (Py.takeStr n (Py.cleanText s)).data = false :=
  hasTag_false_of_okLt _ (cleanText_take_okLt n s)

/-- The transcript.py txt line loop keeps the summary at most 200
    characters: every assignment truncates to 200. -/
theorem txtLoopT_len :
    ∀ (ls : List String) (role : Option String)
      (st : Transcript.TranscriptStats), st.summary.length ≤ 200 →
    (Transcript.txtLoop ls role st).summary.length ≤ 200 := by
  intro ls
  induction ls with
  | nil =>
    intro role st h
    exact h
  | cons line rest ih =>
    intro role st h
    simp only [Transcript.txtLoop]
    split_ifs <;>
      first
        | exact ih _ _ h
        | exact ih _ _ (takeStr_len_le 200 _)

/-- The indexer.py txt line loop keeps the summary at most 200
    characters. -/
theorem txtLoopI_len :
    ∀ (ls : List String) (role : Option String) (acc : Indexer.TxtAcc),
    acc.summary.length ≤ 200 →
    (Indexer.txtLoop ls role acc).summary.length ≤ 200 := by
  intro ls
  induction ls with
  | nil =>
    intro role acc h
    exact h
  | cons line rest ih =>
    intro role acc h
    simp only [Indexer.txtLoop]
    split_ifs <;>
      first
        | exact ih _ _ h
        | exact ih _ _ (takeStr_len_le 200 _)

/-- The transcript.py scanner returns a summary of at most 200
    characters on every input. -/
theorem parseT_summary_len (jloads : String → Option JValue) (ext : String)
    (content : Option String) :
    (Transcript.parse jloads ext content).summary.length ≤ 200 := by
  show (Transcript.parseStats jloads ext content).summary.length ≤ 200
  cases content with
  | none =>
    show (({} : Transcript.TranscriptStats)).summary.length ≤ 200
    decide
  | some text =>
    show ((if ext == "jsonl" then
        (Transcript.parse_jsonl jloads (Py.lines text) {}).1
      else if ext == "txt" then Transcript.parse_txt text {}
      else {}) : Transcript.TranscriptStats).summary.length ≤ 200
    split_ifs with h1 h2
    · rcases parse_jsonlT_summary jloads (Py.lines text) {} with h3 | h3
      · rw [h3]
        decide
      · obtain ⟨t, ht⟩ := h3
        rw [ht]
        exact takeStr_len_le 200 _
    · show (Transcript.txtLoop (Py.lines text) none
        (match Py.userQuerySummaryRaw text with
         | some g =>
           { ({} : Transcript.TranscriptStats) with
             summary := Py.takeStr 200 (Py.cleanText g) }
         | none => ({} : Transcript.TranscriptStats))).summary.length ≤ 200
      refine txtLoopT_len _ none _ ?_
      cases Py.userQuerySummaryRaw text with
      | none => decide
      | some g => exact takeStr_len_le 200 _
    · decide

/-- The indexer.py scanner returns a summary of at most 200 characters on
    every input. -/
theorem parseI_summary_len (jloads : String → Option JValue) (ext : String)
    (content : Option String) :
    (Indexer.parse_transcript jloads ext content).summary.length ≤ 200 := by
  cases content with
  | none =>
    show ScanResult.zero.summary.length ≤ 200
    decide
  | some text =>
    show ((if ext == "jsonl" then
        match Indexer.parse_jsonl jloads (Py.lines text) {} with
        | some acc => Indexer.jsonlResult acc
        | none => ScanResult.zero
      else if ext == "txt" then Indexer.txtResult (Indexer.parse_txt text)
      else ScanResult.zero) : ScanResult).summary.length ≤ 200
    split_ifs with h1 h2
    · cases hp : Indexer.parse_jsonl jloads (Py.lines text) {} with
      | none => decide
      | some acc =>
        show acc.summary.length ≤ 200
        rcases parse_jsonlI_summary jloads _ _ _ hp with h3 | h3
        · rw [h3]
          decide
        · obtain ⟨t, ht⟩ := h3
          rw [ht]
          exact takeStr_len_le 200 _
    · show (Indexer.txtLoop (Py.lines text) none
        (match Py.userQuerySummaryRaw text with
         | some g =>
           { ({} : Indexer.TxtAcc) with
             summary := Py.takeStr 200 ⟨Py.collapseWs g.data⟩ }
         | none => ({} : Indexer.TxtAcc))).summary.length ≤ 200
      refine txtLoopI_len _ none _ ?_
      cases Py.userQuerySummaryRaw text with
      | none => decide
      | some g => exact takeStr_len_le 200 _
    · decide

/-- C5 corrected: in both implementations the summary never exceeds 200
    characters on any input of any format, and for Format A it holds no
    complete angle-bracket tag; for Format B the fallback summary is the
    raw stripped line, truncated but not tag-stripped, so it can keep a
    complete tag (see the counterexample). -/
theorem c5_summary_bound (jloads : String → Option JValue) (ext : String)
    (content : Option String) :
    (Transcript.parse jloads ext content).summary.length ≤ 200 ∧
    (Indexer.parse_transcript jloads ext content).summary.length ≤ 200 ∧
    (ext = "jsonl" →
      hasTag (Transcript.parse jloads ext content).summary.data = false ∧
      hasTag (Indexer.parse_transcript jloads ext
        content).summary.data = false) := by
  refine ⟨parseT_summary_len jloads ext content,
    parseI_summary_len jloads ext content, ?_⟩
  intro he
  subst he
  constructor
  · show hasTag
      (Transcript.parseStats jloads "jsonl" content).summary.data = false
    cases content with
    | none =>
      show hasTag (({} : Transcript.TranscriptStats)).summary.data = false
      decide
    | some text =>
      show hasTag
        (Transcript.parse_jsonl jloads (Py.lines text) {}).1.summary.data
          = false
      rcases parse_jsonlT_summary jloads (Py.lines text) {} with h3 | h3
      · rw [h3]
        decide
      · obtain ⟨t, ht⟩ := h3
        rw [ht]
        exact hasTag_cleanText_take 200 t
  · cases content with
    | none =>
      show hasTag ScanResult.zero.summary.data = false
      decide
    | some text =>
      show hasTag
        ((match Indexer.parse_jsonl jloads (Py.lines text) {} with
          | some acc => Indexer.jsonlResult acc
          | none => ScanResult.zero) : ScanResult).summary.data = false
      cases hp : Indexer.parse_jsonl jloads (Py.lines text) {} with
      | none => decide
      | some acc =>
        show hasTag acc.summary.data = false
        rcases parse_jsonlI_summary jloads _ _ _ hp with h3 | h3
        · rw [h3]
          decide
        · obtain ⟨t, ht⟩ := h3
          rw [ht]
          exact hasTag_cleanText_take 200 t

/-- Witness for C5 at a concrete Format-A input: one canonical user
    record; the tag-freedom part applies with its hypothesis discharged. -/
theorem c5_summary_bound_witness :
    hasTag (Transcript.parse demoLoads "jsonl"
      (some "U")).summary.data = false ∧
    hasTag (Indexer.parse_transcript demoLoads "jsonl"
      (some "U")).summary.data = false :=
  (c5_summary_bound demoLoads "jsonl" (some "U")).2.2 rfl

/-- C5 counterexample: on a Format-B input whose first user content line
    is "a <b> c", both implementations keep the complete tag in the
    summary: the fallback summary is the raw line, not tag-stripped. -/
theorem c5_summary_tag_cex :
    hasTag (Transcript.parse demoLoads "txt"
      (some "user:\na <b> c")).summary.data = true ∧
    hasTag (Indexer.parse_transcript demoLoads "txt"
      (some "user:\na <b> c")).summary.data = true := by
  decide

/-- Truncation arithmetic for the preview counts. -/
theorem min_shift (x q : Nat) (h : 1 ≤ x) :
    min (x - 1) q + 1 = min x (q + 1) := by omega

/-- The jsonl preview qualifier count grows on a printed line. -/
theorem qualJsonl_cons_pos (jloads : String → Option JValue) (l : String)
    (rest : List String) (h : jsonlQualifies jloads l = true) :
    qualJsonl jloads (l :: rest) = qualJsonl jloads rest + 1 := by
  simp [qualJsonl, List.filter_cons, h]

/-- The jsonl preview qualifier count ignores a skipped line. -/
theorem qualJsonl_cons_neg (jloads : String → Option JValue) (l : String)
    (rest : List String) (h : jsonlQualifies jloads l = false) :
    qualJsonl jloads (l :: rest) = qualJsonl jloads rest := by
  simp [qualJsonl, List.filter_cons, h]

/-- The indexer jsonl preview qualifier count grows on a printed line. -/
theorem qualJsonlI_cons_pos (jloads : String → Option JValue) (l : String)
    (rest : List String) (h : jsonlQualifiesI jloads l = true) :
    qualJsonlI jloads (l :: rest) = qualJsonlI jloads rest + 1 := by
  simp [qualJsonlI, List.filter_cons, h]

/-- The indexer jsonl preview qualifier count ignores a skipped line. -/
theorem qualJsonlI_cons_neg (jloads : String → Option JValue) (l : String)
    (rest : List String) (h : jsonlQualifiesI jloads l = false) :
    qualJsonlI jloads (l :: rest) = qualJsonlI jloads rest := by
  simp [qualJsonlI, List.filter_cons, h]

/-- The txt preview qualifier count grows on a printed line. -/
theorem qualTxt_cons_pos (l : String) (rest : List String)
    (h : txtQualifies l = true) :
    qualTxt (l :: rest) = qualTxt rest + 1 := by
  simp [qualTxt, List.filter_cons, h]

/-- The txt preview qualifier count ignores a skipped line. -/
theorem qualTxt_cons_neg (l : String) (rest : List String)
    (h : txtQualifies l = false) :
    qualTxt (l :: rest) = qualTxt rest := by
  simp [qualTxt, List.filter_cons, h]

/-- The indexer txt preview qualifier count grows on a printed line. -/
theorem qualTxtI_cons_pos (l : String) (rest : List String)
    (h : txtQualifiesI l = true) :
    qualTxtI (l :: rest) = qualTxtI rest + 1 := by
  simp [qualTxtI, List.filter_cons, h]

/-- The indexer txt preview qualifier count ignores a skipped line. -/
theorem qualTxtI_cons_neg (l : String) (rest : List String)
    (h : txtQualifiesI l = false) :
    qualTxtI (l :: rest) = qualTxtI rest := by
  simp [qualTxtI, List.filter_cons, h]

/-- The emitted content count grows on a non-marker line. -/
theorem contentCount_cons_of (pl : PrevLine) (xs : List PrevLine)
    (h : pl.isMarker = false) :
    contentCount (pl :: xs) = contentCount xs + 1 := by
  simp [contentCount, List.filter_cons, h]

/-- transcript.py _preview_jsonl prints, when no exception aborts it, one
    content line per qualifying line, up to the limit. -/
theorem preview_jsonlT_count (jloads : String → Option JValue) :
    ∀ (ls : List String) (count limit : Nat), count ≤ limit →
    (Transcript.preview_jsonl jloads ls count limit).2 = true →
    contentCount (Transcript.preview_jsonl jloads ls count limit).1
      = min (limit - count) (qualJsonl jloads ls) := by
  intro ls
  induction ls with
  | nil =>
    intro count limit h hf
    show (0 : Nat) = min (limit - count) 0
    simp
  | cons l rest ih =>
    intro count limit h hf
    simp only [Transcript.preview_jsonl] at hf ⊢
    by_cases h1 : limit ≤ count
    · rw [if_pos h1, Nat.sub_eq_zero_of_le h1]
      show (0 : Nat) = min 0 (qualJsonl jloads (l :: rest))
      simp
    · rw [if_neg h1] at hf ⊢
      by_cases h2 : (Py.strip l == "") = true
      · rw [if_pos h2] at hf ⊢
        have hq : jsonlQualifies jloads l = false := by
          simp only [jsonlQualifies, bne, h2, Bool.not_true, Bool.false_and]
        rw [qualJsonl_cons_neg jloads l rest hq]
        exact ih count limit h hf
      · rw [if_neg h2] at hf ⊢
        have h2f : (Py.strip l == "") = false := by simpa using h2
        cases hj : jloads (Py.strip l) with
        | none =>
          rw [hj] at hf
          simp only [] at hf ⊢
          have hq : jsonlQualifies jloads l = false := by
            simp only [jsonlQualifies, hj, Bool.and_false]
          rw [qualJsonl_cons_neg jloads l rest hq]
          exact ih count limit h hf
        | some v =>
          rw [hj] at hf
          simp only [] at hf ⊢
          cases hr : Transcript.previewRecord v with
          | error e =>
            rw [hr] at hf
            simp only [] at hf
            exact absurd hf (by simp)
          | ok o =>
            cases o with
            | none =>
              rw [hr] at hf
              simp only [] at hf ⊢
              have hq : jsonlQualifies jloads l = false := by
                simp only [jsonlQualifies, hj, hr, Bool.and_false]
              rw [qualJsonl_cons_neg jloads l rest hq]
              exact ih count limit h hf
            | some p =>
              obtain ⟨u, t⟩ := p
              rw [hr] at hf
              simp only [] at hf ⊢
              have hq : jsonlQualifies jloads l = true := by
                simp only [jsonlQualifies, bne, h2f, Bool.not_false, hj, hr,
                  Bool.true_and]
              rw [qualJsonl_cons_pos jloads l rest hq,
                contentCount_cons_of (PrevLine.tagged u t) _ rfl,
                ih (count + 1) limit (by omega) hf,
                show limit - (count + 1) = limit - count - 1 from by omega]
              exact min_shift (limit - count) (qualJsonl jloads rest) (by omega)

/-- The jsonl branch of indexer.py preview_transcript prints, when no
    exception aborts it, one content line per qualifying line, up to the
    limit. -/
theorem preview_jsonlI_count (jloads : String → Option JValue) :
    ∀ (ls : List String) (count limit : Nat), count ≤ limit →
    (Indexer.preview_jsonl jloads ls count limit).2 = true →
    contentCount (Indexer.preview_jsonl jloads ls count limit).1
      = min (limit - count) (qualJsonlI jloads ls) := by
  intro ls
  induction ls with
  | nil =>
    intro count limit h hf
    show (0 : Nat) = min (limit - count) 0
    simp
  | cons l rest ih =>
    intro count limit h hf
    simp only [Indexer.preview_jsonl] at hf ⊢
    by_cases h1 : limit ≤ count
    · rw [if_pos h1, Nat.sub_eq_zero_of_le h1]
      show (0 : Nat) = min 0 (qualJsonlI jloads (l :: rest))
      simp
    · rw [if_neg h1] at hf ⊢
      by_cases h2 : (Py.strip l == "") = true
      · rw [if_pos h2] at hf ⊢
        have hq : jsonlQualifiesI jloads l = false := by
          simp only [jsonlQualifiesI, bne, h2, Bool.not_true, Bool.false_and]
        rw [qualJsonlI_cons_neg jloads l rest hq]
        exact ih count limit h hf
      · rw [if_neg h2] at hf ⊢
        have h2f : (Py.strip l == "") = false := by simpa using h2
        cases hj : jloads (Py.strip l) with
        | none =>
          rw [hj] at hf
          simp only [] at hf ⊢
          have hq : jsonlQualifiesI jloads l = false := by
            simp only [jsonlQualifiesI, hj, Bool.and_false]
          rw [qualJsonlI_cons_neg jloads l rest hq]
          exact ih count limit h hf
        | some v =>
          rw [hj] at hf
          simp only [] at hf ⊢
          cases hr : Indexer.previewRecord v with
          | error e =>
            rw [hr] at hf
            simp only [] at hf
            exact absurd hf (by simp)
          | ok o =>
            cases o with
            | none =>
              rw [hr] at hf
              simp only [] at hf ⊢
              have hq : jsonlQualifiesI jloads l = false := by
                simp only [jsonlQualifiesI, hj, hr, Bool.and_false]
              rw [qualJsonlI_cons_neg jloads l rest hq]
              exact ih count limit h hf
            | some p =>
              obtain ⟨u, t⟩ := p
              rw [hr] at hf
              simp only [] at hf ⊢
              have hq : jsonlQualifiesI jloads l = true := by
                simp only [jsonlQualifiesI, bne, h2f, Bool.not_false, hj, hr,
                  Bool.true_and]
              rw [qualJsonlI_cons_pos jloads l rest hq,
                contentCount_cons_of (PrevLine.tagged u t) _ rfl,
                ih (count + 1) limit (by omega) hf,
                show limit - (count + 1) = limit - count - 1 from by omega]
              exact min_shift (limit - count) (qualJsonlI jloads rest) (by omega)

/-- transcript.py _preview_txt prints one content line per qualifying line,
    up to the limit. -/
theorem preview_txtT_count :
    ∀ (ls : List String) (count limit : Nat), count ≤ limit →
    contentCount (Transcript.preview_txt ls count limit)
      = min (limit - count) (qualTxt ls) := by
  intro ls
  induction ls with
  | nil =>
    intro count limit h
    show (0 : Nat) = min (limit - count) 0
    simp
  | cons l rest ih =>
    intro count limit h
    simp only [Transcript.preview_txt]
    by_cases h1 : limit ≤ count
    · rw [if_pos h1, Nat.sub_eq_zero_of_le h1]
      show (0 : Nat) = min 0 (qualTxt (l :: rest))
      simp
    · rw [if_neg h1]
      by_cases h2 : (Py.strip l == "user:" || Py.strip l == "assistant:") = true
      · rw [if_pos h2]
        have hq : txtQualifies l = false := by
          simp only [txtQualifies, h2, Bool.not_true, Bool.false_and]
        rw [qualTxt_cons_neg l rest hq]
        exact ih count limit h
      · rw [if_neg h2]
        have h2f : (Py.strip l == "user:" || Py.strip l == "assistant:")
            = false := by simpa using h2
        by_cases h3 : (Py.startsWith "<user_query>" (Py.strip l) ||
            Py.startsWith "</user_query>" (Py.strip l)) = true
        · rw [if_pos h3]
          have hq : txtQualifies l = false := by
            simp only [txtQualifies, h2f, Bool.not_false, Bool.true_and, h3,
              Bool.not_true, Bool.false_and]
          rw [qualTxt_cons_neg l rest hq]
          exact ih count limit h
        · rw [if_neg h3]
          have h3f : (Py.startsWith "<user_query>" (Py.strip l) ||
              Py.startsWith "</user_query>" (Py.strip l)) = false := by
            simpa using h3
          by_cases h4 : Py.startsWith "[Tool call]" (Py.strip l) = true
          · rw [if_pos h4]
            have hq : txtQualifies l = true := by
              simp only [txtQualifies, h2f, Bool.not_false, Bool.true_and,
                h3f, h4, Bool.true_or]
            rw [qualTxt_cons_pos l rest hq,
              contentCount_cons_of (PrevLine.toolLine (Py.strip l)) _ rfl,
              ih (count + 1) limit (by omega),
              show limit - (count + 1) = limit - count - 1 from by omega]
            exact min_shift (limit - count) (qualTxt rest) (by omega)
          · rw [if_neg h4]
            have h4f : Py.startsWith "[Tool call]" (Py.strip l) = false := by
              simpa using h4
            by_cases h5 : (Py.strip l != "" &&
                !(Py.startsWith "[Tool result]" (Py.strip l))) = true
            · rw [if_pos h5]
              by_cases h6 : (Py.cleanText (Py.strip l) != "") = true
              · rw [if_pos h6]
                have hq : txtQualifies l = true := by
                  simp only [txtQualifies, h2f, Bool.not_false, Bool.true_and,
                    h3f, h4f, Bool.false_or, h5, h6]
                rw [qualTxt_cons_pos l rest hq,
                  contentCount_cons_of
                    (PrevLine.textLine (Py.takeStr 150
                      (Py.cleanText (Py.strip l)))) _ rfl,
                  ih (count + 1) limit (by omega),
                  show limit - (count + 1) = limit - count - 1 from by omega]
                exact min_shift (limit - count) (qualTxt rest) (by omega)
              · rw [if_neg h6]
                have h6f : (Py.cleanText (Py.strip l) != "") = false := by
                  simpa using h6
                have hq : txtQualifies l = false := by
                  simp only [txtQualifies, h2f, Bool.not_false, Bool.true_and,
                    h3f, h4f, Bool.false_or, h6f, Bool.and_false]
                rw [qualTxt_cons_neg l rest hq]
                exact ih count limit h
            · rw [if_neg h5]
              have h5f : (Py.strip l != "" &&
                  !(Py.startsWith "[Tool result]" (Py.strip l))) = false := by
                simpa using h5
              have hq : txtQualifies l = false := by
                simp only [txtQualifies, h2f, Bool.not_false, Bool.true_and,
                  h3f, h4f, Bool.false_or, h5f, Bool.false_and]
              rw [qualTxt_cons_neg l rest hq]
              exact ih count limit h

/-- The txt branch of indexer.py preview_transcript prints one content line
    per qualifying line, up to the limit. -/
theorem preview_txtI_count :
    ∀ (ls : List String) (count limit : Nat), count ≤ limit →
    contentCount (Indexer.preview_txt ls count limit)
      = min (limit - count) (qualTxtI ls) := by
  intro ls
  induction ls with
  | nil =>
    intro count limit h
    show (0 : Nat) = min (limit - count) 0
    simp
  | cons l rest ih =>
    intro count limit h
    simp only [Indexer.preview_txt]
    by_cases h1 : limit ≤ count
    · rw [if_pos h1, Nat.sub_eq_zero_of_le h1]
      show (0 : Nat) = min 0 (qualTxtI (l :: rest))
      simp
    · rw [if_neg h1]
      by_cases h2 : (Py.strip l == "user:" || Py.strip l == "assistant:") = true
      · rw [if_pos h2]
        have hq : txtQualifiesI l = false := by
          simp only [txtQualifiesI, h2, Bool.not_true, Bool.false_and]
        rw [qualTxtI_cons_neg l rest hq]
        exact ih count limit h
      · rw [if_neg h2]
        have h2f : (Py.strip l == "user:" || Py.strip l == "assistant:")
            = false := by simpa using h2
        by_cases h3 : (Py.startsWith "<user_query>" (Py.strip l) ||
            Py.startsWith "</user_query>" (Py.strip l)) = true
        · rw [if_pos h3]
          have hq : txtQualifiesI l = false := by
            simp only [txtQualifiesI, h2f, Bool.not_false, Bool.true_and, h3,
              Bool.not_true, Bool.false_and]
          rw [qualTxtI_cons_neg l rest hq]
          exact ih count limit h
        · rw [if_neg h3]
          have h3f : (Py.startsWith "<user_query>" (Py.strip l) ||
              Py.startsWith "</user_query>" (Py.strip l)) = false := by
            simpa using h3
          by_cases h4 : Py.startsWith "[Tool call]" (Py.strip l) = true
          · rw [if_pos h4]
            have hq : txtQualifiesI l = true := by
              simp only [txtQualifiesI, h2f, Bool.not_false, Bool.true_and,
                h3f, h4, Bool.true_or]
            rw [qualTxtI_cons_pos l rest hq,
              contentCount_cons_of (PrevLine.toolLine (Py.strip l)) _ rfl,
              ih (count + 1) limit (by omega),
              show limit - (count + 1) = limit - count - 1 from by omega]
            exact min_shift (limit - count) (qualTxtI rest) (by omega)
          · rw [if_neg h4]
            have h4f : Py.startsWith "[Tool call]" (Py.strip l) = false := by
              simpa using h4
            by_cases h5 : (Py.strip l != "" &&
                !(Py.startsWith "[Tool result]" (Py.strip l))) = true
            · rw [if_pos h5]
              by_cases h6 : (Py.strip ⟨Py.stripTagsList (Py.strip l).data⟩
                  != "") = true
              · rw [if_pos h6]
                have hq : txtQualifiesI l = true := by
                  simp only [txtQualifiesI, h2f, Bool.not_false, Bool.true_and,
                    h3f, h4f, Bool.false_or, h5, h6]
                rw [qualTxtI_cons_pos l rest hq,
                  contentCount_cons_of
                    (PrevLine.textLine (Py.takeStr 150
                      (Py.strip ⟨Py.stripTagsList (Py.strip l).data⟩))) _ rfl,
                  ih (count + 1) limit (by omega),
                  show limit - (count + 1) = limit - count - 1 from by omega]
                exact min_shift (limit - count) (qualTxtI rest) (by omega)
              · rw [if_neg h6]
                have h6f : (Py.strip ⟨Py.stripTagsList (Py.strip l).data⟩
                    != "") = false := by simpa using h6
                have hq : txtQualifiesI l = false := by
                  simp only [txtQualifiesI, h2f, Bool.not_false, Bool.true_and,
                    h3f, h4f, Bool.false_or, h6f, Bool.and_false]
                rw [qualTxtI_cons_neg l rest hq]
                exact ih count limit h
            · rw [if_neg h5]
              have h5f : (Py.strip l != "" &&
                  !(Py.startsWith "[Tool result]" (Py.strip l))) = false := by
                simpa using h5
              have hq : txtQualifiesI l = false := by
                simp only [txtQualifiesI, h2f, Bool.not_false, Bool.true_and,
                  h3f, h4f, Bool.false_or, h5f, Bool.false_and]
              rw [qualTxtI_cons_neg l rest hq]
              exact ih count limit h

/-- A line rendered by a transcript.py jsonl record is cleaned text cut to
    150 characters. -/
theorem previewRecordT_shape (v : JValue) (u : Bool) (t : String)
    (h : Transcript.previewRecord v = .ok (some (u, t))) :
    ∃ s, t = Py.takeStr 150 (Py.cleanText s) := by
  unfold Transcript.previewRecord at h
  split at h
  · exact absurd h (by simp)
  · split at h
    · exact absurd h (by simp)
    · split at h
      · exact absurd h (by simp)
      · split at h
        · exact absurd h (by simp)
        · split at h
          · exact absurd h (by simp)
          · exact absurd h (by simp)
          · next t0 heq =>
            refine ⟨t0, ?_⟩
            injection h with h2
            injection h2 with h3
            exact (congrArg Prod.snd h3).symm

/-- A line rendered by an indexer.py jsonl record is tag-stripped, stripped
    and collapsed text cut to 150 characters. -/
theorem previewRecordI_shape (v : JValue) (u : Bool) (t : String)
    (h : Indexer.previewRecord v = .ok (some (u, t))) :
    ∃ s : String, t = Py.takeStr 150
      ⟨Py.collapseWs (Py.stripList (Py.stripTagsList s.data))⟩ := by
  unfold Indexer.previewRecord at h
  split at h
  · exact absurd h (by simp)
  · split at h
    · exact absurd h (by simp)
    · split at h
      · exact absurd h (by simp)
      · split at h
        · exact absurd h (by simp)
        · split at h
          · exact absurd h (by simp)
          · exact absurd h (by simp)
          · next t0 heq =>
            refine ⟨t0, ?_⟩
            injection h with h2
            injection h2 with h3
            exact (congrArg Prod.snd h3).symm

/-- Every line transcript.py _preview_jsonl emits is the truncation marker
    or a direction-tagged line of at most 150 characters. -/
theorem preview_jsonlT_shape (jloads : String → Option JValue) :
    ∀ (ls : List String) (count limit : Nat) (pl : PrevLine),
    pl ∈ (Transcript.preview_jsonl jloads ls count limit).1 →
    pl.isMarker = true ∨
      ∃ u t, pl = PrevLine.tagged u t ∧ t.length ≤ 150 := by
  intro ls
  induction ls with
  | nil =>
    intro count limit pl hm
    exact absurd hm (by simp [Transcript.preview_jsonl])
  | cons l rest ih =>
    intro count limit pl hm
    simp only [Transcript.preview_jsonl] at hm
    by_cases h1 : limit ≤ count
    · rw [if_pos h1] at hm
      left
      have h2 : pl = PrevLine.truncMarker := by simpa using hm
      rw [h2]
      rfl
    · rw [if_neg h1] at hm
      by_cases h2 : (Py.strip l == "") = true
      · rw [if_pos h2] at hm
        exact ih count limit pl hm
      · rw [if_neg h2] at hm
        cases hj : jloads (Py.strip l) with
        | none =>
          rw [hj] at hm
          simp only [] at hm
          exact ih count limit pl hm
        | some v =>
          rw [hj] at hm
          simp only [] at hm
          cases hr : Transcript.previewRecord v with
          | error e =>
            rw [hr] at hm
            simp only [] at hm
            exact absurd hm (by simp)
          | ok o =>
            cases o with
            | none =>
              rw [hr] at hm
              simp only [] at hm
              exact ih count limit pl hm
            | some p =>
              obtain ⟨u, t⟩ := p
              rw [hr] at hm
              simp only [] at hm
              rcases List.mem_cons.mp hm with hm | hm
              · right
                obtain ⟨s, hs⟩ := previewRecordT_shape v u t hr
                exact ⟨u, t, hm, by rw [hs]; exact takeStr_len_le 150 _⟩
              · exact ih (count + 1) limit pl hm

/-- Every line the indexer.py jsonl preview emits is the truncation marker
    or a direction-tagged line of at most 150 characters. -/
theorem preview_jsonlI_shape (jloads : String → Option JValue) :
    ∀ (ls : List String) (count limit : Nat) (pl : PrevLine),
    pl ∈ (Indexer.preview_jsonl jloads ls count limit).1 →
    pl.isMarker = true ∨
      ∃ u t, pl = PrevLine.tagged u t ∧ t.length ≤ 150 := by
  intro ls
  induction ls with
  | nil =>
    intro count limit pl hm
    exact absurd hm (by simp [Indexer.preview_jsonl])
  | cons l rest ih =>
    intro count limit pl hm
    simp only [Indexer.preview_jsonl] at hm
    by_cases h1 : limit ≤ count
    · rw [if_pos h1] at hm
      left
      have h2 : pl = PrevLine.truncMarker := by simpa using hm
      rw [h2]
      rfl
    · rw [if_neg h1] at hm
      by_cases h2 : (Py.strip l == "") = true
      · rw [if_pos h2] at hm
        exact ih count limit pl hm
      · rw [if_neg h2] at hm
        cases hj : jloads (Py.strip l) with
        | none =>
          rw [hj] at hm
          simp only [] at hm
          exact ih count limit pl hm
        | some v =>
          rw [hj] at hm
          simp only [] at hm
          cases hr : Indexer.previewRecord v with
          | error e =>
            rw [hr] at hm
            simp only [] at hm
            exact absurd hm (by simp)
          | ok o =>
            cases o with
            | none =>
              rw [hr] at hm
              simp only [] at hm
              exact ih count limit pl hm
            | some p =>
              obtain ⟨u, t⟩ := p
              rw [hr] at hm
              simp only [] at hm
              rcases List.mem_cons.mp hm with hm | hm
              · right
                obtain ⟨s, hs⟩ := previewRecordI_shape v u t hr
                exact ⟨u, t, hm, by rw [hs]; exact takeStr_len_le 150 _⟩
              · exact ih (count + 1) limit pl hm

/-- Every line transcript.py _preview_txt emits is the truncation marker, a
    text line of at most 150 characters, or a tool-call line (the latter
    printed untruncated). -/
theorem preview_txtT_shape :
    ∀ (ls : List String) (count limit : Nat) (pl : PrevLine),
    pl ∈ Transcript.preview_txt ls count limit →
    pl.isMarker = true ∨
      (∃ t, pl = PrevLine.textLine t ∧ t.length ≤ 150) ∨
      ∃ t, pl = PrevLine.toolLine t := by
  intro ls
  induction ls with
  | nil =>
    intro count limit pl hm
    exact absurd hm (by simp [Transcript.preview_txt])
  | cons l rest ih =>
    intro count limit pl hm
    simp only [Transcript.preview_txt] at hm
    by_cases h1 : limit ≤ count
    · rw [if_pos h1] at hm
      left
      have h2 : pl = PrevLine.truncMarker := by simpa using hm
      rw [h2]
      rfl
    · rw [if_neg h1] at hm
      by_cases h2 : (Py.strip l == "user:" || Py.strip l == "assistant:") = true
      · rw [if_pos h2] at hm
        exact ih count limit pl hm
      · rw [if_neg h2] at hm
        by_cases h3 : (Py.startsWith "<user_query>" (Py.strip l) ||
            Py.startsWith "</user_query>" (Py.strip l)) = true
        · rw [if_pos h3] at hm
          exact ih count limit pl hm
        · rw [if_neg h3] at hm
          by_cases h4 : Py.startsWith "[Tool call]" (Py.strip l) = true
          · rw [if_pos h4] at hm
            rcases List.mem_cons.mp hm with hm | hm
            · right
              right
              exact ⟨Py.strip l, hm⟩
            · exact ih (count + 1) limit pl hm
          · rw [if_neg h4] at hm
            by_cases h5 : (Py.strip l != "" &&
                !(Py.startsWith "[Tool result]" (Py.strip l))) = true
            · rw [if_pos h5] at hm
              by_cases h6 : (Py.cleanText (Py.strip l) != "") = true
              · rw [if_pos h6] at hm
                rcases List.mem_cons.mp hm with hm | hm
                · right
                  left
                  exact ⟨Py.takeStr 150 (Py.cleanText (Py.strip l)), hm,
                    takeStr_len_le 150 _⟩
                · exact ih (count + 1) limit pl hm
              · rw [if_neg h6] at hm
                exact ih count limit pl hm
            · rw [if_neg h5] at hm
              exact ih count limit pl hm

/-- Every line the indexer.py txt preview emits is the truncation marker, a
    text line of at most 150 characters, or a tool-call line (the latter
    printed untruncated). -/
theorem preview_txtI_shape :
    ∀ (ls : List String) (count limit : Nat) (pl : PrevLine),
    pl ∈ Indexer.preview_txt ls count limit →
    pl.isMarker = true ∨
      (∃ t, pl = PrevLine.textLine t ∧ t.length ≤ 150) ∨
      ∃ t, pl = PrevLine.toolLine t := by
  intro ls
  induction ls with
  | nil =>
    intro count limit pl hm
    exact absurd hm (by simp [Indexer.preview_txt])
  | cons l rest ih =>
    intro count limit pl hm
    simp only [Indexer.preview_txt] at hm
    by_cases h1 : limit ≤ count
    · rw [if_pos h1] at hm
      left
      have h2 : pl = PrevLine.truncMarker := by simpa using hm
      rw [h2]
      rfl
    · rw [if_neg h1] at hm
      by_cases h2 : (Py.strip l == "user:" || Py.strip l == "assistant:") = true
      · rw [if_pos h2] at hm
        exact ih count limit pl hm
      · rw [if_neg h2] at hm
        by_cases h3 : (Py.startsWith "<user_query>" (Py.strip l) ||
            Py.startsWith "</user_query>" (Py.strip l)) = true
        · rw [if_pos h3] at hm
          exact ih count limit pl hm
        · rw [if_neg h3] at hm
          by_cases h4 : Py.startsWith "[Tool call]" (Py.strip l) = true
          · rw [if_pos h4] at hm
            rcases List.mem_cons.mp hm with hm | hm
            · right
              right
              exact ⟨Py.strip l, hm⟩
            · exact ih (count + 1) limit pl hm
          · rw [if_neg h4] at hm
            by_cases h5 : (Py.strip l != "" &&
                !(Py.startsWith "[Tool result]" (Py.strip l))) = true
            · rw [if_pos h5] at hm
              by_cases h6 : (Py.strip ⟨Py.stripTagsList (Py.strip l).data⟩
                  != "") = true
              · rw [if_pos h6] at hm
                rcases List.mem_cons.mp hm with hm | hm
                · right
                  left
                  exact ⟨Py.takeStr 150
                    (Py.strip ⟨Py.stripTagsList (Py.strip l).data⟩), hm,
                    takeStr_len_le 150 _⟩
                · exact ih (count + 1) limit pl hm
              · rw [if_neg h6] at hm
                exact ih count limit pl hm
            · rw [if_neg h5] at hm
              exact ih count limit pl hm

/-- C7 corrected: both preview renderers emit, up to the limit, one line per
    line that qualifies under the renderer's own tests, and every content
    line except a Format-B tool-call line is truncated to 150 characters
    (for Format A, when no exception aborts the rendering).  The original
    claim fails in two ways (see the counterexample): a Format-A tool
    invocation never renders a line, and Format-B tool-call lines print
    untruncated (Format-B text lines are also not direction-tagged). -/
theorem c7_preview_lines (jloads : String → Option JValue) (ls : List String)
    (count limit : Nat) (h : count ≤ limit) :
    ((Transcript.preview_jsonl jloads ls count limit).2 = true →
      contentCount (Transcript.preview_jsonl jloads ls count limit).1
        = min (limit - count) (qualJsonl jloads ls)) ∧
    contentCount (Transcript.preview_txt ls count limit)
      = min (limit - count) (qualTxt ls) ∧
    ((Indexer.preview_jsonl jloads ls count limit).2 = true →
      contentCount (Indexer.preview_jsonl jloads ls count limit).1
        = min (limit - count) (qualJsonlI jloads ls)) ∧
    contentCount (Indexer.preview_txt ls count limit)
      = min (limit - count) (qualTxtI ls) ∧
    (∀ pl ∈ (Transcript.preview_jsonl jloads ls count limit).1,
      pl.isMarker = true ∨
        ∃ u t, pl = PrevLine.tagged u t ∧ t.length ≤ 150) ∧
    (∀ pl ∈ Transcript.preview_txt ls count limit,
      pl.isMarker = true ∨
        (∃ t, pl = PrevLine.textLine t ∧ t.length ≤ 150) ∨
        ∃ t, pl = PrevLine.toolLine t) ∧
    (∀ pl ∈ (Indexer.preview_jsonl jloads ls count limit).1,
      pl.isMarker = true ∨
        ∃ u t, pl = PrevLine.tagged u t ∧ t.length ≤ 150) ∧
    (∀ pl ∈ Indexer.preview_txt ls count limit,
      pl.isMarker = true ∨
        (∃ t, pl = PrevLine.textLine t ∧ t.length ≤ 150) ∨
        ∃ t, pl = PrevLine.toolLine t) :=
  ⟨fun hf => preview_jsonlT_count jloads ls count limit h hf,
   preview_txtT_count ls count limit h,
   fun hf => preview_jsonlI_count jloads ls count limit h hf,
   preview_txtI_count ls count limit h,
   fun pl hm => preview_jsonlT_shape jloads ls count limit pl hm,
   fun pl hm => preview_txtT_shape ls count limit pl hm,
   fun pl hm => preview_jsonlI_shape jloads ls count limit pl hm,
   fun pl hm => preview_txtI_shape ls count limit pl hm⟩

/-- Witness for C7 at a concrete mixed Format-A input: one user record, a
    blank line and an unparseable line give exactly one rendered line. -/
theorem c7_preview_lines_witness :
    contentCount (Transcript.preview_jsonl demoLoads ["U", "", "zzz"] 0 3).1
      = min (3 - 0) (qualJsonl demoLoads ["U", "", "zzz"]) :=
  (c7_preview_lines demoLoads ["U", "", "zzz"] 0 3 (by decide)).1 (by decide)

/-- C7 counterexample: the Format-A record with one tool_use block is a
    qualifying unit for the scanner (tool_calls = 1) yet renders no line in
    either implementation, and a Format-B tool-call line of 172 characters
    renders whole, not truncated to 150. -/
theorem c7_preview_cex :
    (Transcript.parse demoLoads "jsonl" (some "T")).tool_calls = 1 ∧
    Transcript.preview_jsonl demoLoads ["T"] 0 20 = ([], true) ∧
    Indexer.preview_jsonl demoLoads ["T"] 0 20 = ([], true) ∧
    Transcript.preview_txt
        [String.mk ("[Tool call] ".data ++ List.replicate 160 'a')] 0 20
      = [PrevLine.toolLine
          (String.mk ("[Tool call] ".data ++ List.replicate 160 'a'))] ∧
    150 < (String.mk ("[Tool call] ".data ++ List.replicate 160 'a')).length := by
  refine ⟨by decide, by decide, by decide, ?_, by decide⟩
  decide

/-- Skipped-line step for the truncation-marker characterisation. -/
theorem marker_step_skip (l : String) (ls : List String) (count limit : Nat)
    (h1 : ¬ limit ≤ count) (hq : txtQualifies l = false) :
    (∃ k, k < ls.length ∧ limit ≤ count + qualTxt (List.take k ls)) ↔
    (∃ k, k < (l :: ls).length ∧
      limit ≤ count + qualTxt (List.take k (l :: ls))) := by
  constructor
  · rintro ⟨k, hk, hle⟩
    refine ⟨k + 1, by simpa using Nat.succ_lt_succ hk, ?_⟩
    rw [List.take_succ_cons, qualTxt_cons_neg _ _ hq]
    exact hle
  · rintro ⟨k, hk, hle⟩
    cases k with
    | zero =>
      exact absurd (by simpa [qualTxt] using hle) h1
    | succ k =>
      refine ⟨k, by simpa using hk, ?_⟩
      rw [List.take_succ_cons, qualTxt_cons_neg _ _ hq] at hle
      exact hle

/-- Printed-line step for the truncation-marker characterisation. -/
theorem marker_step_emit (l : String) (ls : List String) (count limit : Nat)
    (h1 : ¬ limit ≤ count) (hq : txtQualifies l = true) :
    (∃ k, k < ls.length ∧ limit ≤ count + 1 + qualTxt (List.take k ls)) ↔
    (∃ k, k < (l :: ls).length ∧
      limit ≤ count + qualTxt (List.take k (l :: ls))) := by
  constructor
  · rintro ⟨k, hk, hle⟩
    refine ⟨k + 1, by simpa using Nat.succ_lt_succ hk, ?_⟩
    rw [List.take_succ_cons, qualTxt_cons_pos _ _ hq]
    omega
  · rintro ⟨k, hk, hle⟩
    cases k with
    | zero =>
      exact absurd (by simpa [qualTxt] using hle) h1
    | succ k =>
      refine ⟨k, by simpa using hk, ?_⟩
      rw [List.take_succ_cons, qualTxt_cons_pos _ _ hq] at hle
      omega

/-- transcript.py _preview_txt prints the truncation marker exactly when
    some input line is reached with the limit already exhausted. -/
theorem preview_txt_marker :
    ∀ (ls : List String) (count limit : Nat),
    (PrevLine.truncMarker ∈ Transcript.preview_txt ls count limit ↔
      ∃ k, k < ls.length ∧ limit ≤ count + qualTxt (List.take k ls)) := by
  intro ls
  induction ls with
  | nil =>
    intro count limit
    simp [Transcript.preview_txt]
  | cons l rest ih =>
    intro count limit
    simp only [Transcript.preview_txt]
    by_cases h1 : limit ≤ count
    · rw [if_pos h1]
      constructor
      · intro _
        exact ⟨0, by simp, by simpa [qualTxt] using h1⟩
      · intro _
        exact List.mem_singleton.mpr rfl
    · rw [if_neg h1]
      by_cases h2 : (Py.strip l == "user:" || Py.strip l == "assistant:") = true
      · rw [if_pos h2]
        have hq : txtQualifies l = false := by
          simp only [txtQualifies, h2, Bool.not_true, Bool.false_and]
        rw [ih count limit]
        exact marker_step_skip l rest count limit h1 hq
      · rw [if_neg h2]
        have h2f : (Py.strip l == "user:" || Py.strip l == "assistant:")
            = false := by simpa using h2
        by_cases h3 : (Py.startsWith "<user_query>" (Py.strip l) ||
            Py.startsWith "</user_query>" (Py.strip l)) = true
        · rw [if_pos h3]
          have hq : txtQualifies l = false := by
            simp only [txtQualifies, h2f, Bool.not_false, Bool.true_and, h3,
              Bool.not_true, Bool.false_and]
          rw [ih count limit]
          exact marker_step_skip l rest count limit h1 hq
        · rw [if_neg h3]
          have h3f : (Py.startsWith "<user_query>" (Py.strip l) ||
              Py.startsWith "</user_query>" (Py.strip l)) = false := by
            simpa using h3
          by_cases h4 : Py.startsWith "[Tool call]" (Py.strip l) = true
          · rw [if_pos h4]
            have hq : txtQualifies l = true := by
              simp only [txtQualifies, h2f, Bool.not_false, Bool.true_and,
                h3f, h4, Bool.true_or]
            constructor
            · intro hm
              rcases List.mem_cons.mp hm with hm | hm
              · exact absurd hm (by simp)
              · exact (marker_step_emit l rest count limit h1 hq).mp
                  ((ih (count + 1) limit).mp hm)
            · intro hx
              exact List.mem_cons_of_mem _ ((ih (count + 1) limit).mpr
                ((marker_step_emit l rest count limit h1 hq).mpr hx))
          · rw [if_neg h4]
            have h4f : Py.startsWith "[Tool call]" (Py.strip l) = false := by
              simpa using h4
            by_cases h5 : (Py.strip l != "" &&
                !(Py.startsWith "[Tool result]" (Py.strip l))) = true
            · rw [if_pos h5]
              by_cases h6 : (Py.cleanText (Py.strip l) != "") = true
              · rw [if_pos h6]
                have hq : txtQualifies l = true := by
                  simp only [txtQualifies, h2f, Bool.not_false, Bool.true_and,
                    h3f, h4f, Bool.false_or, h5, h6]
                constructor
                · intro hm
                  rcases List.mem_cons.mp hm with hm | hm
                  · exact absurd hm (by simp)
                  · exact (marker_step_emit l rest count limit h1 hq).mp
                      ((ih (count + 1) limit).mp hm)
                · intro hx
                  exact List.mem_cons_of_mem _ ((ih (count + 1) limit).mpr
                    ((marker_step_emit l rest count limit h1 hq).mpr hx))
              · rw [if_neg h6]
                have h6f : (Py.cleanText (Py.strip l) != "") = false := by
                  simpa using h6
                have hq : txtQualifies l = false := by
                  simp only [txtQualifies, h2f, Bool.not_false, Bool.true_and,
                    h3f, h4f, Bool.false_or, h6f, Bool.and_false]
                rw [ih count limit]
                exact marker_step_skip l rest count limit h1 hq
            · rw [if_neg h5]
              have h5f : (Py.strip l != "" &&
                  !(Py.startsWith "[Tool result]" (Py.strip l))) = false := by
                simpa using h5
              have hq : txtQualifies l = false := by
                simp only [txtQualifies, h2f, Bool.not_false, Bool.true_and,
                  h3f, h4f, Bool.false_or, h5f, Bool.false_and]
              rw [ih count limit]
              exact marker_step_skip l rest count limit h1 hq

/-- C8 corrected: the Format-B renderer emits exactly min(limit, qualifying)
    content lines and appends the truncation marker exactly when an input
    line is reached with the limit exhausted; the Format-A renderer behaves
    the same as long as no exception aborts it — the limit-3-over-5-messages
    scenario holds in both formats — but a record exception stops the
    Format-A rendering short of the limit with no marker even though input
    remains (see the counterexample). -/
theorem c8_preview_stop (jloads : String → Option JValue) (ls : List String)
    (count limit : Nat) (h : count ≤ limit) :
    contentCount (Transcript.preview_txt ls count limit)
      = min (limit - count) (qualTxt ls) ∧
    ((Transcript.preview_jsonl jloads ls count limit).2 = true →
      contentCount (Transcript.preview_jsonl jloads ls count limit).1
        = min (limit - count) (qualJsonl jloads ls)) ∧
    (PrevLine.truncMarker ∈ Transcript.preview_txt ls count limit ↔
      ∃ k, k < ls.length ∧ limit ≤ count + qualTxt (List.take k ls)) ∧
    Transcript.preview_txt ["user:", "m1", "m2", "m3", "m4", "m5"] 0 3
      = [PrevLine.textLine "m1", PrevLine.textLine "m2",
         PrevLine.textLine "m3", PrevLine.truncMarker] ∧
    Transcript.preview_jsonl demoLoads ["U", "U", "U", "U", "U"] 0 3
      = ([PrevLine.tagged true "hello world", PrevLine.tagged true "hello world",
          PrevLine.tagged true "hello world", PrevLine.truncMarker], true) :=
  ⟨preview_txtT_count ls count limit h,
   fun hf => preview_jsonlT_count jloads ls count limit h hf,
   preview_txt_marker ls count limit,
   by decide,
   by decide⟩

/-- Witness for C8 at a concrete Format-B input: two qualifying lines under
    limit 3 give two content lines. -/
theorem c8_preview_stop_witness :
    contentCount (Transcript.preview_txt ["user:", "m1", "m2"] 0 3)
      = min (3 - 0) (qualTxt ["user:", "m1", "m2"]) :=
  (c8_preview_stop demoLoads ["user:", "m1", "m2"] 0 3 (by decide)).1

/-- C8 counterexample: a Format-A record whose text block lacks the "text"
    key raises; the rendering stops after zero content lines with no
    truncation marker although qualifying input ("U") remains and the limit
    was never reached. -/
theorem c8_preview_abort_cex :
    Transcript.preview_jsonl demoLoads ["B", "U"] 0 3 = ([], false) ∧
    Transcript.preview_jsonl demoLoads ["U"] 0 3
      = ([PrevLine.tagged true "hello world"], true) := by
  constructor
  · decide
  · decide

/-- Every memoised answer of an all-false cache is false. -/
theorem cache_lookup_false :
    ∀ (c : Paths.Cache) (p : String) (b : Bool), Paths.allFalse c = true →
    c.lookup p = some b → b = false := by
  intro c
  induction c with
  | nil =>
    intro p b _ h2
    exact absurd h2 (by simp)
  | cons e rest ih =>
    intro p b h1 h2
    obtain ⟨k, v⟩ := e
    simp only [Paths.allFalse, List.all_cons, Bool.and_eq_true] at h1
    by_cases hpk : (p == k) = true
    · simp only [List.lookup, hpk, if_true] at h2
      have hv : v = false := by simpa using h1.1
      rw [← Option.some_inj.mp h2]
      exact hv
    · have hpkf : (p == k) = false := by simpa using hpk
      simp only [List.lookup, hpkf, Bool.false_eq_true, if_false] at h2
      exact ih p b h1.2 h2

/-- When no path exists, the memoised existence check answers false and
    keeps the cache all-false. -/
theorem pathExistsC_false (ex : String → Bool) (c : Paths.Cache) (p : String)
    (hex : ∀ q, ex q = false) (hc : Paths.allFalse c = true) :
    (Paths.pathExistsC ex c p).1 = false ∧
    Paths.allFalse (Paths.pathExistsC ex c p).2 = true := by
  unfold Paths.pathExistsC
  cases hl : c.lookup p with
  | some b =>
    simp only []
    exact ⟨cache_lookup_false c p b hc hl, hc⟩
  | none =>
    simp only []
    refine ⟨hex p, ?_⟩
    simpa [Paths.allFalse, hex p] using hc

/-- When no path exists, the memoised candidate selection picks the same
    candidate as the pure one and keeps the cache all-false. -/
theorem pickC_false (ex : String → Bool) (c : Paths.Cache)
    (rS : Option String) (rDot rDash : String)
    (hex : ∀ q, ex q = false) (hc : Paths.allFalse c = true) :
    (Paths.pickC ex c rS rDot rDash).1 = Paths.pick ex rS rDot rDash ∧
    Paths.allFalse (Paths.pickC ex c rS rDot rDash).2 = true := by
  cases rS with
  | some r =>
    obtain ⟨e1a, e1b⟩ := pathExistsC_false ex c r hex hc
    obtain ⟨e2a, e2b⟩ := pathExistsC_false ex (Paths.pathExistsC ex c r).2
      rDot hex e1b
    obtain ⟨e3a, e3b⟩ := pathExistsC_false ex
      (Paths.pathExistsC ex (Paths.pathExistsC ex c r).2 rDot).2 rDash hex e2b
    constructor
    · simp only [Paths.pickC, Paths.pick, e1a, e2a, e3a, hex r, hex rDot,
        hex rDash, Bool.false_eq_true, if_false]
    · simp only [Paths.pickC, e1a, e2a, e3a, Bool.false_eq_true, if_false]
      exact e3b
  | none =>
    obtain ⟨e2a, e2b⟩ := pathExistsC_false ex c rDot hex hc
    obtain ⟨e3a, e3b⟩ := pathExistsC_false ex (Paths.pathExistsC ex c rDot).2
      rDash hex e2b
    constructor
    · simp only [Paths.pickC, Paths.pick, e2a, e3a, hex rDot, hex rDash,
        Bool.false_eq_true, if_false]
    · simp only [Paths.pickC, e2a, e3a, Bool.false_eq_true, if_false]
      exact e3b

/-- When no path exists, the memoised no-drive solve equals the pure one
    and keeps the cache all-false. -/
theorem solveC_false (ex : String → Bool) (hex : ∀ q, ex q = false) :
    ∀ (parts : List String) (seg pfx : String) (c : Paths.Cache),
    Paths.allFalse c = true →
    (Paths.solveC ex parts seg pfx c).1 = Paths.solve ex parts seg pfx ∧
    Paths.allFalse (Paths.solveC ex parts seg pfx c).2 = true := by
  intro parts
  induction parts with
  | nil =>
    intro seg pfx c hc
    exact ⟨rfl, hc⟩
  | cons part rest ih =>
    intro seg pfx c hc
    obtain ⟨d1a, d1b⟩ := ih (seg ++ "-" ++ part) pfx c hc
    obtain ⟨d2a, d2b⟩ := ih (seg ++ "." ++ part) pfx
      (Paths.solveC ex rest (seg ++ "-" ++ part) pfx c).2 d1b
    obtain ⟨ea, eb⟩ := pathExistsC_false ex
      (Paths.solveC ex rest (seg ++ "." ++ part) pfx
        (Paths.solveC ex rest (seg ++ "-" ++ part) pfx c).2).2
      (Paths.joinSeg pfx seg) hex d2b
    obtain ⟨pa, pb⟩ := pickC_false ex
      (Paths.pathExistsC ex
        (Paths.solveC ex rest (seg ++ "." ++ part) pfx
          (Paths.solveC ex rest (seg ++ "-" ++ part) pfx c).2).2
        (Paths.joinSeg pfx seg)).2
      none
      (Paths.solveC ex rest (seg ++ "." ++ part) pfx
        (Paths.solveC ex rest (seg ++ "-" ++ part) pfx c).2).1
      (Paths.solveC ex rest (seg ++ "-" ++ part) pfx c).1 hex eb
    simp only [Paths.solveC, Paths.solve, ea, hex (Paths.joinSeg pfx seg),
      Bool.false_eq_true, if_false]
    refine ⟨?_, pb⟩
    rw [pa, d2a, d1a]

/-- When no path exists, the memoised drive solve equals the pure one and
    keeps the cache all-false. -/
theorem solveDriveC_false (ex : String → Bool) (hex : ∀ q, ex q = false) :
    ∀ (parts : List String) (seg pfx : String) (c : Paths.Cache),
    Paths.allFalse c = true →
    (Paths.solveDriveC ex parts seg pfx c).1
      = Paths.solveDrive ex parts seg pfx ∧
    Paths.allFalse (Paths.solveDriveC ex parts seg pfx c).2 = true := by
  intro parts
  induction parts with
  | nil =>
    intro seg pfx c hc
    exact ⟨rfl, hc⟩
  | cons part rest ih =>
    intro seg pfx c hc
    obtain ⟨d1a, d1b⟩ := ih (seg ++ "-" ++ part) pfx c hc
    obtain ⟨d2a, d2b⟩ := ih (seg ++ "." ++ part) pfx
      (Paths.solveDriveC ex rest (seg ++ "-" ++ part) pfx c).2 d1b
    obtain ⟨ea, eb⟩ := pathExistsC_false ex
      (Paths.solveDriveC ex rest (seg ++ "." ++ part) pfx
        (Paths.solveDriveC ex rest (seg ++ "-" ++ part) pfx c).2).2
      (pfx ++ seg) hex d2b
    obtain ⟨pa, pb⟩ := pickC_false ex
      (Paths.pathExistsC ex
        (Paths.solveDriveC ex rest (seg ++ "." ++ part) pfx
          (Paths.solveDriveC ex rest (seg ++ "-" ++ part) pfx c).2).2
        (pfx ++ seg)).2
      none
      (Paths.solveDriveC ex rest (seg ++ "." ++ part) pfx
        (Paths.solveDriveC ex rest (seg ++ "-" ++ part) pfx c).2).1
      (Paths.solveDriveC ex rest (seg ++ "-" ++ part) pfx c).1 hex eb
    simp only [Paths.solveDriveC, Paths.solveDrive, ea, hex (pfx ++ seg),
      Bool.false_eq_true, if_false]
    refine ⟨?_, pb⟩
    rw [pa, d2a, d1a]

/-- When no path exists, the memoised drive detection equals the pure one
    and keeps the cache all-false. -/
theorem detectDriveC_false (isWin : Bool) (ex : String → Bool)
    (hex : ∀ q, ex q = false) (c : Paths.Cache) (parts : List String)
    (hc : Paths.allFalse c = true) :
    (Paths.detectDriveC isWin ex c parts).1
      = Paths.detectDrive isWin ex parts ∧
    Paths.allFalse (Paths.detectDriveC isWin ex c parts).2 = true := by
  cases parts with
  | nil => exact ⟨rfl, hc⟩
  | cons p0 rest =>
    cases rest with
    | nil => exact ⟨rfl, hc⟩
    | cons p1 rest2 =>
      simp only [Paths.detectDriveC, Paths.detectDrive]
      by_cases halpha : (p0.length == 1 && p0.data.all Char.isAlpha) = true
      · rw [if_pos halpha, if_pos halpha]
        cases hwin : isWin with
        | true =>
          simp only [if_true, Bool.true_or]
          exact ⟨trivial, hc⟩
        | false =>
          obtain ⟨e1a, e1b⟩ := pathExistsC_false ex c (Py.upper p0 ++ ":/")
            hex hc
          obtain ⟨e2a, e2b⟩ := pathExistsC_false ex
            (Paths.pathExistsC ex c (Py.upper p0 ++ ":/")).2 ("/" ++ p0)
            hex e1b
          simp only [e1a, e2a, hex (Py.upper p0 ++ ":/"), hex ("/" ++ p0),
            Bool.false_eq_true, if_false, Bool.false_or]
          exact ⟨trivial, e2b⟩
      · rw [if_neg halpha, if_neg halpha]
        exact ⟨rfl, hc⟩

/-- When no path exists, one memoised decode run equals the pure decode and
    keeps the cache all-false. -/
theorem folder_to_pathC_false (isWin : Bool) (ex : String → Bool)
    (hex : ∀ q, ex q = false) (c : Paths.Cache) (name : String)
    (hc : Paths.allFalse c = true) :
    (Paths.folder_to_pathC isWin ex c name).1
      = Paths.folder_to_path isWin ex name ∧
    Paths.allFalse (Paths.folder_to_pathC isWin ex c name).2 = true := by
  simp only [Paths.folder_to_pathC, Paths.folder_to_path]
  by_cases hvar : Py.startsWith "var-" name = true
  · rw [if_pos hvar, if_pos hvar]
    exact ⟨rfl, hc⟩
  · rw [if_neg hvar, if_neg hvar]
    cases hsp : Py.splitOnChar '-' name with
    | nil => exact ⟨rfl, hc⟩
    | cons p0 rest =>
      cases rest with
      | nil => exact ⟨rfl, hc⟩
      | cons p1 rest2 =>
        simp only []
        obtain ⟨da, db⟩ := detectDriveC_false isWin ex hex c
          (p0 :: p1 :: rest2) hc
        rw [da]
        by_cases hd : ((Paths.detectDrive isWin ex (p0 :: p1 :: rest2)).1
            != "") = true
        · rw [if_pos hd, if_pos hd]
          by_cases hlen : (p0 :: p1 :: rest2).length ≤
              (Paths.detectDrive isWin ex (p0 :: p1 :: rest2)).2
          · rw [if_pos hlen, if_pos hlen]
            exact ⟨rfl, db⟩
          · rw [if_neg hlen, if_neg hlen]
            exact solveDriveC_false ex hex rest2 p1
              (Paths.detectDrive isWin ex (p0 :: p1 :: rest2)).1
              (Paths.detectDriveC isWin ex c (p0 :: p1 :: rest2)).2 db
        · rw [if_neg hd, if_neg hd]
          exact solveC_false ex hex (p1 :: rest2) p0 ""
            (Paths.detectDriveC isWin ex c (p0 :: p1 :: rest2)).2 db

/-- C9: when the existence oracle answers false for every queried path,
    decode is a pure function of the input string alone: two runs of the
    memoised folder_to_path on the same name from any two all-false cache
    states return the same result, that result is the pure folder_to_path
    of the name, and the cache stays all-false — so any sequence of prior
    decode calls (which can only grow an all-false cache) cannot change the
    answer. -/
theorem c9_decode_pure (isWin : Bool) (ex : String → Bool) (name : String)
    (c1 c2 : Paths.Cache) (hex : ∀ p, ex p = false)
    (h1 : Paths.allFalse c1 = true) (h2 : Paths.allFalse c2 = true) :
    (Paths.folder_to_pathC isWin ex c1 name).1
      = (Paths.folder_to_pathC isWin ex c2 name).1 ∧
    (Paths.folder_to_pathC isWin ex c1 name).1
      = Paths.folder_to_path isWin ex name ∧
    Paths.allFalse (Paths.folder_to_pathC isWin ex c1 name).2 = true := by
  obtain ⟨a1, b1⟩ := folder_to_pathC_false isWin ex hex c1 name h1
  obtain ⟨a2, _⟩ := folder_to_pathC_false isWin ex hex c2 name h2
  exact ⟨a1.trans a2.symm, a1, b1⟩

/-- Witness for C9 at a concrete name and two different all-false caches:
    both runs decode "a-b" identically. -/
theorem c9_decode_pure_witness :
    (Paths.folder_to_pathC false (fun _ => false) [("/x", false)] "a-b").1
      = (Paths.folder_to_pathC false (fun _ => false) [] "a-b").1 ∧
    (Paths.folder_to_pathC false (fun _ => false) [("/x", false)] "a-b").1
      = Paths.folder_to_path false (fun _ => false) "a-b" ∧
    Paths.allFalse
      (Paths.folder_to_pathC false (fun _ => false)
        [("/x", false)] "a-b").2 = true :=
  c9_decode_pure false (fun _ => false) "a-b" [("/x", false)] []
    (fun _ => rfl) (by decide) (by decide)
